import Mathlib

/-!
Verification of the geometric core of the `Scene.py` ray tracer: primitive
intersection routines (sphere, plane, face soups), the AABB tree builder and
traverser, and the scene aggregator.  All code is shallowly embedded over
exact rational arithmetic; square roots (used only by the sphere solver and
by face areas) are passed explicitly as oracle arguments, so every theorem
about them carries the defining hypothesis of the root where it matters.
-/

set_option maxHeartbeats 1600000

namespace SceneQ

/-- Three-dimensional vector over the rationals, standing for `ti.Vector` of `f32`. -/
structure Vec3 where
  x : ℚ
  y : ℚ
  z : ℚ
deriving DecidableEq

def Vec3.add (u v : Vec3) : Vec3 := ⟨u.x + v.x, u.y + v.y, u.z + v.z⟩

instance : Add Vec3 := ⟨Vec3.add⟩

def Vec3.sub (u v : Vec3) : Vec3 := ⟨u.x - v.x, u.y - v.y, u.z - v.z⟩

instance : Sub Vec3 := ⟨Vec3.sub⟩

def Vec3.neg (v : Vec3) : Vec3 := ⟨-v.x, -v.y, -v.z⟩

instance : Neg Vec3 := ⟨Vec3.neg⟩

def Vec3.smul (c : ℚ) (v : Vec3) : Vec3 := ⟨c * v.x, c * v.y, c * v.z⟩

instance : HMul ℚ Vec3 Vec3 := ⟨Vec3.smul⟩

/-- Componentwise division by a scalar (`v / c` in taichi). -/
def Vec3.divQ (v : Vec3) (c : ℚ) : Vec3 := ⟨v.x / c, v.y / c, v.z / c⟩

def Vec3.dot (u v : Vec3) : ℚ := u.x * v.x + u.y * v.y + u.z * v.z

def Vec3.cross (u v : Vec3) : Vec3 :=
  ⟨u.y * v.z - u.z * v.y, u.z * v.x - u.x * v.z, u.x * v.y - u.y * v.x⟩

/-- Index access `v[i]` with the source's three components. -/
def Vec3.nth (v : Vec3) : Nat → ℚ
  | 0 => v.x
  | 1 => v.y
  | _ => v.z

def Vec3.zero : Vec3 := ⟨0, 0, 0⟩

/-- Componentwise minimum, as in `min(x[j], a[j], b[j])` folded per axis. -/
def Vec3.cmin (u v : Vec3) : Vec3 := ⟨min u.x v.x, min u.y v.y, min u.z v.z⟩

def Vec3.cmax (u v : Vec3) : Vec3 := ⟨max u.x v.x, max u.y v.y, max u.z v.z⟩

/-- Material constants of `Scene.py`. -/
def M_unknown : ℤ := 0

def M_light_source : ℤ := 1

def M_metal : ℤ := 2

def M_fuzzy_metal : ℤ := 5

def M_dielectric : ℤ := 3

def M_diffuse : ℤ := 4

/-- A ray; the class constructor normalises `direction`, so embedded rays are
supplied with their direction already as stored. -/
structure RayQ where
  origin : Vec3
  direction : Vec3
deriving DecidableEq

/-- `Ray.at`: `origin + t * direction`. -/
def rayAt (r : RayQ) (t : ℚ) : Vec3 := r.origin + t * r.direction

/-- The tuple every `ray_intersect` returns:
`(is_hit, hit_time, hit_point, hit_normal, material, color, is_inside)`. -/
structure HitRec where
  isHit : Bool
  time : ℚ
  point : Vec3
  normal : Vec3
  material : ℤ
  color : Vec3
  inside : Bool
deriving DecidableEq

/-- `_sphere_hit(x, r, ray, time_min, time_max)`.  `sq` stands for the value
`ti.sqrt(t)` of the discriminant's square root, taken as an oracle argument;
theorems about this function hypothesise `sq * sq = disc` and `0 ≤ sq`. -/
def sphereHit (x : Vec3) (r : ℚ) (ray : RayQ) (timeMin timeMax sq : ℚ) :
    Bool × ℚ × Vec3 × Vec3 × Bool :=
  let oc := ray.origin - x
  let doc := Vec3.dot ray.direction oc
  let t := doc * doc - (Vec3.dot oc oc - r * r)
  let res : Bool × ℚ × Bool :=
    if t > timeMin then
      if sq < timeMax then
        let t1 := -doc + sq
        let t2 := -doc - sq
        if t1 < 0 then
          if t2 > 0 then (true, t2, true)
          else (false, timeMax, false)
        else
          if t2 > 0 then (true, min t1 t2, false)
          else (true, t2, true)
      else (false, timeMax, false)
    else (false, timeMax, false)
  if res.1 then
    let hitPoint := rayAt ray res.2.1
    let hitNormal :=
      if res.2.2 then Vec3.divQ (x - hitPoint) r else Vec3.divQ (hitPoint - x) r
    (res.1, res.2.1, hitPoint, hitNormal, res.2.2)
  else (res.1, res.2.1, Vec3.zero, ⟨0, 1, 0⟩, res.2.2)

/-- `Sphere.ray_intersect`: `_sphere_hit` plus the sphere's material and color. -/
def sphereRayIntersect (center : Vec3) (radius : ℚ) (material : ℤ) (color : Vec3)
    (ray : RayQ) (timeMin timeMax sq : ℚ) : HitRec :=
  let h := sphereHit center radius ray timeMin timeMax sq
  ⟨h.1, h.2.1, h.2.2.1, h.2.2.2.1, material, color, h.2.2.2.2⟩

/-- `Plane.ray_intersect`.  `center`/`normal` are the stored fields. -/
def planeRayIntersect (center normal : Vec3) (material : ℤ) (color : Vec3)
    (ray : RayQ) (timeMin timeMax : ℚ) : HitRec :=
  if Vec3.dot ray.direction normal < 0 then
    let hitTime := Vec3.dot normal (center - ray.origin) / Vec3.dot normal ray.direction
    if hitTime < timeMin then
      ⟨false, hitTime, Vec3.zero, ⟨0, 1, 0⟩, material, color, false⟩
    else if hitTime < timeMax then
      ⟨true, hitTime, rayAt ray hitTime, normal, material, color, false⟩
    else
      ⟨false, hitTime, Vec3.zero, ⟨0, 1, 0⟩, material, color, false⟩
  else ⟨false, timeMax, Vec3.zero, ⟨0, 1, 0⟩, material, color, false⟩

/-- The plane-crossing parameter `t = normal·(center − origin) / normal·direction`. -/
def planeT (center normal : Vec3) (ray : RayQ) : ℚ :=
  Vec3.dot normal (center - ray.origin) / Vec3.dot normal ray.direction

/-- Result record of `_parallelogram_init`. -/
structure PInit where
  ax : Vec3
  bx : Vec3
  n : Vec3
  area : ℚ
  detidx : ℤ
  idet : ℚ
deriving DecidableEq

/-- `_parallelogram_init(a, x, b)`.  `area` stands for `normal.norm()`, the
euclidean norm of `bx × ax`, supplied as an oracle argument. -/
def parallelogramInit (a x b : Vec3) (area : ℚ) : PInit :=
  let ax := a - x
  let bx := b - x
  let normal0 := Vec3.cross bx ax
  let normal := Vec3.divQ normal0 area
  let det0 := ax.y * bx.z - ax.z * bx.y
  let eps : ℚ := 1 / 100000000
  let dd : ℚ × ℤ :=
    if |det0| < eps then
      let det1 := ax.x * bx.z - ax.z * bx.x
      if |det1| < eps then (ax.x * bx.y - ax.y * bx.x, 2) else (det1, 1)
    else (det0, 0)
  ⟨ax, bx, normal, area, dd.2, 1 / dd.1⟩

/-- `_parallelogram_alpha_beta(px, ax, bx, idetidx, idet)`. -/
def parallelogramAlphaBeta (px ax bx : Vec3) (idetidx : ℤ) (idet : ℚ) : ℚ × ℚ :=
  let ab : ℚ × ℚ :=
    if idetidx = 0 then
      (px.y * bx.z - px.z * bx.y, px.z * ax.y - px.y * ax.z)
    else if idetidx = 1 then
      (px.x * bx.z - px.z * bx.x, px.z * ax.x - px.x * ax.z)
    else
      (px.x * bx.y - px.y * bx.x, px.y * ax.x - px.x * ax.y)
  (ab.1 * idet, ab.2 * idet)

/-- `TriangleSoup._check_ab`. -/
def checkAbTriangle (alpha beta : ℚ) : Bool :=
  if alpha < 0 ∨ beta < 0 ∨ alpha + beta > 1 then false else true

/-- `ParallelogramSoup._check_ab` (the override). -/
def checkAbPara (alpha beta : ℚ) : Bool :=
  if alpha < 0 ∨ beta < 0 ∨ alpha > 1 ∨ beta > 1 then false else true

/-- Acceptance predicate selected by soup kind (`isPara = true` for
`ParallelogramSoup`/`Box`). -/
def checkAb (isPara : Bool) (alpha beta : ℚ) : Bool :=
  if isPara then checkAbPara alpha beta else checkAbTriangle alpha beta

/-- Stored face of a `TriangleSoup`/`ParallelogramSoup`. -/
structure Face where
  x : Vec3
  ax : Vec3
  bx : Vec3
  n : Vec3
  idetidx : ℤ
  idet : ℚ
  material : ℤ
  color : Vec3
deriving DecidableEq

/-- The all-zero face a taichi field holds at untouched slots. -/
def defaultFace : Face := ⟨Vec3.zero, Vec3.zero, Vec3.zero, Vec3.zero, 0, 0, 0, Vec3.zero⟩

/-- Mutable state of a face soup: fixed capacity, default material/color, and
the faces stored so far (`face_count` is the list length). -/
structure FaceSoup where
  cap : Nat
  material : ℤ
  color : Vec3
  faces : List Face
deriving DecidableEq

/-- `TriangleSoup.append(a, x, b, material, color)` with the oracle `area`. -/
def soupAppend (s : FaceSoup) (a x b : Vec3) (area : ℚ) (material : Option ℤ)
    (color : Option Vec3) : FaceSoup :=
  let m := material.getD s.material
  let c := color.getD s.color
  let info := parallelogramInit a x b area
  if info.area > 1 / 1000000000000 then
    { s with faces := s.faces ++ [⟨x, info.ax, info.bx, info.n, info.detidx, info.idet, m, c⟩] }
  else s

/-- A fresh soup of capacity `cap` (`TriangleSoup.__init__`). -/
def soupNew (cap : Nat) (material : ℤ) (color : Vec3) : FaceSoup :=
  ⟨cap, material, color, []⟩

/-- The six corner triples `Box.__init__` appends, in order. -/
def boxTriples (a x b c : Vec3) (normalOut : Bool) : List (Vec3 × Vec3 × Vec3) :=
  let d := b + c - x
  let e := a + c - x
  let f := b + a - x
  if normalOut then
    [(a, x, b), (f, b, d), (b, x, c), (e, a, f), (c, x, a), (d, c, e)]
  else
    [(b, x, a), (d, b, f), (c, x, b), (f, a, e), (a, x, c), (e, c, d)]

/-- Fold a list of corner triples into a soup by `append`, threading the slot
index into the per-slot material/color/area tables. -/
def soupAppendSeq (mats : Nat → ℤ) (cols : Nat → Vec3) (areas : Nat → ℚ) :
    FaceSoup → List (Vec3 × Vec3 × Vec3) → Nat → FaceSoup
  | s, [], _ => s
  | s, (p, q, r) :: rest, i =>
      soupAppendSeq mats cols areas
        (soupAppend s p q r (areas i) (some (mats i)) (some (cols i))) rest (i + 1)

/-- `Box.__init__(a, x, b, c, material, color, normal_out)`: the face array it
builds (six appends into a capacity-6 `ParallelogramSoup`). -/
def boxSoup (a x b c : Vec3) (mats : Nat → ℤ) (cols : Nat → Vec3) (areas : Nat → ℚ)
    (normalOut : Bool) : FaceSoup :=
  soupAppendSeq mats cols areas (soupNew 6 M_unknown ⟨1, 1, 1⟩)
    (boxTriples a x b c normalOut) 0

/-- `ray_intersect_solid_box_face(uhit, omin, omax, axis)`: the hit point's
coordinates other than `axis` must lie within the box extents. -/
def solidBoxFace (uhit omin omax : Vec3) (axis : Nat) : Bool :=
  List.foldl
    (fun ans i =>
      if i ≠ axis then
        (if uhit.nth i < omin.nth i ∨ uhit.nth i > omax.nth i then false else ans)
      else ans)
    true [0, 1, 2]

/-- One axis of the slab scan inside `ray_intersect_solid_box`: try both
boundary crossings, keeping the smallest validated `t` in `tmin`. -/
def solidBoxAxis (ray : RayQ) (cmin cmax : Vec3) (timeMin : ℚ) (tmin : ℚ) (i : Nat) : ℚ :=
  let rdi := ray.direction.nth i
  if rdi ≠ 0 then
    let t1 := (cmin.nth i - ray.origin.nth i) / rdi
    let tminA :=
      if t1 > timeMin ∧ t1 < tmin then
        (if solidBoxFace (rayAt ray t1) cmin cmax i then t1 else tmin)
      else tmin
    let t2 := (cmax.nth i - ray.origin.nth i) / rdi
    if t2 > timeMin ∧ t2 < tminA then
      (if solidBoxFace (rayAt ray t2) cmin cmax i then t2 else tminA)
    else tminA
  else tmin

/-- `ray_intersect_solid_box(ray, cmin, cmax, time_min, time_max)`. -/
def rayIntersectSolidBox (ray : RayQ) (cmin cmax : Vec3) (timeMin timeMax : ℚ) :
    Bool × ℚ :=
  let tmin := List.foldl (solidBoxAxis ray cmin cmax timeMin) timeMax [0, 1, 2]
  (decide (tmin > timeMin ∧ tmin < timeMax), tmin)

/-- A flattened tree node as written by `nodes_to_taichi`: bounding box plus
the two child encodings (`0` no child, `> 0` internal node index, `< 0`
`-(face_index + 1)`). -/
structure FlatNode where
  cmin : Vec3
  cmax : Vec3
  s0 : ℤ
  s1 : ℤ
deriving DecidableEq

/-- The zero struct a taichi field holds at untouched slots. -/
def zeroFlatNode : FlatNode := ⟨Vec3.zero, Vec3.zero, 0, 0⟩

/-- Accumulator of `TriangleSoup.ray_intersect`'s while loop. -/
structure TravState where
  isHit : Bool
  timeMax : ℚ
  point : Vec3
  normal : Vec3
  material : ℤ
  color : Vec3
deriving DecidableEq

/-- The plane/in-plane face acceptance test of `TriangleSoup.ray_intersect`
(the body under `elif _rci < 0`), updating the accumulator on success. -/
def faceTest (isPara : Bool) (ray : RayQ) (timeMin : ℚ) (item : Face) (st : TravState) :
    TravState :=
  if Vec3.dot ray.direction item.n < 0 then
    let t := Vec3.dot item.n (item.x - ray.origin) / Vec3.dot item.n ray.direction
    if t > timeMin ∧ t < st.timeMax then
      let p := rayAt ray t
      let ab := parallelogramAlphaBeta (p - item.x) item.ax item.bx item.idetidx item.idet
      if checkAb isPara ab.1 ab.2 then ⟨true, t, p, item.n, item.material, item.color⟩
      else st
    else st
  else st

/-- Handle one child slot during traversal: push internal nodes, test leaf
faces immediately. -/
def travSlot (isPara : Bool) (faces : List Face) (ray : RayQ) (timeMin : ℚ) (slot : ℤ)
    (stack : List Nat) (st : TravState) : List Nat × TravState :=
  if slot > 0 then (slot.toNat :: stack, st)
  else if slot < 0 then
    let triIdx := (-1 * (slot + 1)).toNat
    (stack, faceTest isPara ray timeMin (faces.getD triIdx defaultFace) st)
  else (stack, st)

/-- The explicit-stack while loop of `TriangleSoup.ray_intersect`, with fuel
bounding the number of pops (the source loop has no such bound; sufficiency is
proved separately for built trees). -/
def travLoop (isPara : Bool) (faces : List Face) (octree : List FlatNode) (ray : RayQ)
    (timeMin : ℚ) : Nat → List Nat → TravState → Option TravState
  | 0, _, _ => none
  | _ + 1, [], st => some st
  | fu + 1, nidx :: rest, st =>
      let node := octree.getD nidx zeroFlatNode
      let bh := rayIntersectSolidBox ray node.cmin node.cmax timeMin st.timeMax
      if bh.1 = false then travLoop isPara faces octree ray timeMin fu rest st
      else
        let s1 := travSlot isPara faces ray timeMin node.s0 rest st
        let s2 := travSlot isPara faces ray timeMin node.s1 s1.1 s1.2
        travLoop isPara faces octree ray timeMin fu s2.1 s2.2

/-- Initial loop accumulator of `TriangleSoup.ray_intersect`. -/
def travInit (soupColor : Vec3) (timeMax : ℚ) : TravState :=
  ⟨false, timeMax, Vec3.zero, ⟨0, 1, 0⟩, 0, soupColor⟩

/-- `TriangleSoup.ray_intersect` / `ParallelogramSoup.ray_intersect`: traverse
the flattened tree from the root (stack seeded with index 0). -/
def soupRayIntersect (isPara : Bool) (soupColor : Vec3) (faces : List Face)
    (octree : List FlatNode) (ray : RayQ) (timeMin timeMax : ℚ) (fuel : Nat) :
    Option HitRec :=
  match travLoop isPara faces octree ray timeMin fuel [0] (travInit soupColor timeMax) with
  | none => none
  | some st => some ⟨st.isHit, st.timeMax, st.point, st.normal, st.material, st.color, false⟩

/-- Modelled from the spec: the brute-force reference scan ("applies the same
plane/in-plane acceptance test to every stored face and keeps the nearest
valid hit"), used as the comparison point of the refinement claim. -/
def bruteGo (isPara : Bool) (ray : RayQ) (timeMin : ℚ) : List Face → TravState → TravState
  | [], st => st
  | f :: rest, st => bruteGo isPara ray timeMin rest (faceTest isPara ray timeMin f st)

/-- Modelled from the spec: brute-force linear-scan nearest hit over all
stored faces. -/
def bruteForceIntersect (isPara : Bool) (soupColor : Vec3) (faces : List Face)
    (ray : RayQ) (timeMin timeMax : ℚ) : HitRec :=
  let st := bruteGo isPara ray timeMin faces (travInit soupColor timeMax)
  ⟨st.isHit, st.timeMax, st.point, st.normal, st.material, st.color, false⟩

/-- Per-face centroid as computed by `_compute_object_centers`:
per axis, the midpoint of the face's corner extents. -/
def objCenter (f : Face) : Vec3 :=
  let a := f.ax + f.x
  let b := f.bx + f.x
  ⟨(min (min f.x.x a.x) b.x + max (max f.x.x a.x) b.x) / 2,
   (min (min f.x.y a.y) b.y + max (max f.x.y a.y) b.y) / 2,
   (min (min f.x.z a.z) b.z + max (max f.x.z a.z) b.z) / 2⟩

/-- Build-time state: the `triangles` array zipped with `objcenters`
(`swap_obj` swaps both in lockstep). -/
abbrev AState := List (Face × Vec3)

def mkState (faces : List Face) : AState := faces.map (fun f => (f, objCenter f))

def defaultPair : Face × Vec3 := (defaultFace, Vec3.zero)

def centerAt (st : AState) (i : Nat) : Vec3 := (st.getD i defaultPair).2

def faceAt (st : AState) (i : Nat) : Face := (st.getD i defaultPair).1

def Vec3.vabs (v : Vec3) : Vec3 := ⟨|v.x|, |v.y|, |v.z|⟩

/-- `_compute_box(L, R)`: returns `(cmin, cmax, |ccmax - ccmin|, mean center)`
exactly as left in `tcmm[0..3]`; note the centroid box is initialised at the
origin (`ccmin = ccmax = 0`), as in the kernel. -/
def computeBox (st : AState) (L R : Nat) : Vec3 × Vec3 × Vec3 × Vec3 :=
  let fL := faceAt st L
  let init : Vec3 × Vec3 × Vec3 × Vec3 × Vec3 :=
    (fL.x, fL.x, Vec3.zero, Vec3.zero, Vec3.zero)
  let acc := List.foldl
    (fun (acc : Vec3 × Vec3 × Vec3 × Vec3 × Vec3) i =>
      let fi := faceAt st i
      let a := fi.ax + fi.x
      let b := fi.bx + fi.x
      let corners := Vec3.cmin fi.x (Vec3.cmin a b)
      let cornersMax := Vec3.cmax fi.x (Vec3.cmax a b)
      (Vec3.cmin acc.1 corners, Vec3.cmax acc.2.1 cornersMax,
       acc.2.2.1 + centerAt st i,
       Vec3.cmin acc.2.2.2.1 (centerAt st i), Vec3.cmax acc.2.2.2.2 (centerAt st i)))
    init (List.range' L (R - L))
  let extent := Vec3.vabs (acc.2.2.2.2 - acc.2.2.2.1)
  let mean := if R > L then Vec3.divQ acc.2.2.1 ((R : ℚ) - (L : ℚ)) else acc.2.2.1
  (acc.1, acc.2.1, extent, mean)

/-- Split-axis selection: `bsize` sorted ascending by extent (Python's stable
sort), the axis of the last entry; on ties the higher axis index wins. -/
def pickAxis (e : Vec3) : Nat :=
  if e.x > e.y ∧ e.x > e.z then 0 else if e.y > e.z then 1 else 2

/-- Inner loop `while objcenters[i][axis] <= x and i < j: i += 1`. -/
def advI (st : AState) (x : ℚ) (axis : Nat) (i j : Nat) : Nat :=
  if (centerAt st i).nth axis ≤ x ∧ i < j then advI st x axis (i + 1) j else i
termination_by j - i
decreasing_by omega

/-- Inner loop `while objcenters[j][axis] >= x and i < j: j -= 1`. -/
def advJ (st : AState) (x : ℚ) (axis : Nat) (i j : Nat) : Nat :=
  if (centerAt st j).nth axis ≥ x ∧ i < j then advJ st x axis i (j - 1) else j
termination_by j
decreasing_by omega

/-- `swap_obj(l, r)`: exchange triangles and centers at the two slots. -/
def swapPair (st : AState) (i j : Nat) : AState :=
  let vi := st.getD i defaultPair
  let vj := st.getD j defaultPair
  (st.set i vj).set j vi

/-- Outer loop of `_sort_triangles`, fueled by the number of iterations
(the loop's termination is proved separately). -/
def partLoop (x : ℚ) (axis : Nat) : Nat → AState → Nat → Nat → Option (Nat × AState)
  | 0, _, _, _ => none
  | fu + 1, st, i, j =>
      if i < j then
        let i1 := advI st x axis i j
        let j1 := advJ st x axis i1 j
        if i1 < j1 then partLoop x axis fu (swapPair st i1 j1) i1 j1
        else some (j1, st)
      else some (j, st)

/-- `_sort_triangles(x, left, right, axis)`, starting at `i = left`,
`j = right - 1`, with provably sufficient fuel. -/
def sortTriangles (st : AState) (x : ℚ) (left right : Nat) (axis : Nat) :
    Option (Nat × AState) :=
  partLoop x axis (2 * (right - left) + 2) st left (right - 1)

/-- Recursive tree node (`AABBTree.TreeNode`): stored face index (`-1` for
internal nodes), box corners, and the two children. -/
inductive TNode : Type where
  | mk : ℤ → Vec3 → Vec3 → Option TNode → Option TNode → TNode

def TNode.index : TNode → ℤ
  | mk i _ _ _ _ => i

def TNode.cminF : TNode → Vec3
  | mk _ c _ _ _ => c

def TNode.cmaxF : TNode → Vec3
  | mk _ _ c _ _ => c

def TNode.left : TNode → Option TNode
  | mk _ _ _ l _ => l

def TNode.right : TNode → Option TNode
  | mk _ _ _ _ r => r

/-- `TreeNode.is_leaf`: `index >= 0`. -/
def TNode.isLeaf (t : TNode) : Bool := decide (0 ≤ t.index)

/-- `TreeNode.index_encode`. -/
def TNode.indexEncode (t : TNode) : ℤ := if t.index < 0 then 0 else -1 * (t.index + 1)

/-- `TreeNode(i)`: a leaf, box corners left at the zero vector. -/
def leafNode (i : ℤ) : TNode := .mk i Vec3.zero Vec3.zero none none

/-- `split_aabb(left, right)` (indices are naturals: every reachable call has
`0 ≤ left < right`).  The outer `Option` is fuel exhaustion (sufficiency is
proved separately); the inner `Option TNode` is the source's `None` result. -/
def splitAabb : Nat → AState → Nat → Nat → Option (Option TNode × AState)
  | 0, _, _, _ => none
  | fu + 1, st, L, R =>
      if L > R then some (none, st)
      else
        let cmm := computeBox st L R
        if R - L = 1 then
          some (some (.mk (-1) cmm.1 cmm.2.1 (some (leafNode (L : ℤ))) none), st)
        else if R - L = 2 then
          some (some (.mk (-1) cmm.1 cmm.2.1 (some (leafNode (L : ℤ)))
            (some (leafNode ((L : ℤ) + 1)))), st)
        else
          let ax := pickAxis cmm.2.2.1
          let center := (cmm.2.2.2).nth ax
          match sortTriangles st center L R ax with
          | none => none
          | some (lx0, st1) =>
              let lx1 := if lx0 = L then L + 1 else lx0
              let lx := if lx1 = R then R - 1 else lx1
              match splitAabb fu st1 L lx with
              | none => none
              | some (lnode, st2) =>
                  match splitAabb fu st2 lx R with
                  | none => none
                  | some (rnode, st3) =>
                      some (some (.mk (-1) cmm.1 cmm.2.1 lnode rnode), st3)

/-- `AABBTree` construction plus `build_tree()`: compute the centers, then
split over `[0, count)` (no split when the soup is empty). -/
def aabbBuild (faces : List Face) : Option (Option TNode × AState) :=
  let st := mkState faces
  if faces.length = 0 then some (none, st)
  else splitAabb faces.length st 0 faces.length

/-- `_nodes_to_taichi(root, out, idx)`: the depth-first list of flattened
nodes this call writes starting at `idx`.  `none` models the source's crash
path (`root.left.is_leaf()` with `left = None` while `right` is present); the
source's accidental use of `root.left.is_leaf()` when encoding the *right*
slot is reproduced as-is. -/
def flattenNode : TNode → Nat → Option (List FlatNode)
  | .mk _ cmin cmax none none, _ => some [⟨cmin, cmax, 0, 0⟩]
  | .mk _ _ _ none (some _), _ => none
  | .mk _ cmin cmax (some c) none, idx =>
      if c.isLeaf then some [⟨cmin, cmax, c.indexEncode, 0⟩]
      else
        match flattenNode c (idx + 1) with
        | none => none
        | some l0 => some (⟨cmin, cmax, (idx : ℤ) + 1, 0⟩ :: l0)
  | .mk _ cmin cmax (some c) (some d), idx =>
      if c.isLeaf then some [⟨cmin, cmax, c.indexEncode, d.indexEncode⟩]
      else
        match flattenNode c (idx + 1) with
        | none => none
        | some l0 =>
            match flattenNode d (idx + (1 + l0.length)) with
            | none => none
            | some l1 =>
                some (⟨cmin, cmax, (idx : ℤ) + 1, ((idx + (1 + l0.length) : Nat) : ℤ)⟩ :: l0 ++ l1)

/-- `TriangleSoup.build_tree()`: build the tree over the current faces and
flatten it into the `octree` field (which stays all-zero when the root is
`None`). -/
def buildFlat (faces : List Face) : Option (List FlatNode) :=
  match aabbBuild faces with
  | none => none
  | some (none, _) => some []
  | some (some t, _) => flattenNode t 0

/-- The face array after `build_tree()` (the build permutes it in place). -/
def builtFaces (faces : List Face) : Option (List Face) :=
  match aabbBuild faces with
  | none => none
  | some (_, st) => some (st.map Prod.fst)

/-- The loop of `Scene.ray_intersect`: each registered object is a function
from the current `(time_min, time_max)` window to its hit record; the
accumulator is the hit record handed back at the end (its `time` field is the
loop's `time_max` variable). -/
def sceneGo : List (ℚ → ℚ → HitRec) → ℚ → HitRec → HitRec
  | [], _, acc => acc
  | f :: rest, tmin, acc =>
      let info := f tmin acc.time
      if info.isHit = true ∧ info.time > tmin then
        if acc.time > info.time then
          sceneGo rest tmin
            ⟨true, info.time, info.point, info.normal, info.material, info.color, info.inside⟩
        else sceneGo rest tmin { acc with isHit := true }
      else sceneGo rest tmin acc

/-- `Scene.ray_intersect(ray, time_min, time_max)` over the registered
objects' intersection functions. -/
def sceneRayIntersect (objs : List (ℚ → ℚ → HitRec)) (tmin tmax : ℚ) : HitRec :=
  sceneGo objs tmin ⟨false, tmax, Vec3.zero, ⟨0, 1, 0⟩, 0, Vec3.zero, false⟩

/-- The name/object registry of `Scene` (objects abstracted by `α`). -/
structure SceneReg (α : Type) where
  objName : List String
  objList : List α
deriving DecidableEq

/-- `Scene.append(obj, name)`: derive `"obj%d"` from the current object count
when no name is given; overwrite the object at the first matching name,
otherwise append both entries. -/
def sceneAppend {α : Type} (s : SceneReg α) (obj : α) (name : Option String) : SceneReg α :=
  let nm := name.getD ("obj" ++ toString s.objList.length)
  match s.objName.findIdx? (fun n => n == nm) with
  | some i => { s with objList := s.objList.set i obj }
  | none => ⟨s.objName ++ [nm], s.objList ++ [obj]⟩

/-- `Scene.remove_obj(name)`: delete the first matching name and its object. -/
def sceneRemove {α : Type} (s : SceneReg α) (name : String) : SceneReg α :=
  match s.objName.findIdx? (fun n => n == name) with
  | some i => ⟨s.objName.eraseIdx i, s.objList.eraseIdx i⟩
  | none => s

/-! Analysis-side definitions (used only in theorem statements and proofs). -/

/-- The plane-crossing parameter a face's plane test computes for a ray
(`t = n·(x − origin) / n·direction`); it depends on the face and ray only. -/
def faceHitT (ray : RayQ) (f : Face) : ℚ :=
  Vec3.dot f.n (f.x - ray.origin) / Vec3.dot f.n ray.direction

/-- Window-independent part of the face acceptance test: front-facing plane
plus the in-plane alpha/beta check at the crossing point. -/
def faceAccepts (isPara : Bool) (ray : RayQ) (f : Face) : Prop :=
  Vec3.dot ray.direction f.n < 0 ∧
  checkAb isPara
    (parallelogramAlphaBeta (rayAt ray (faceHitT ray f) - f.x) f.ax f.bx f.idetidx f.idet).1
    (parallelogramAlphaBeta (rayAt ray (faceHitT ray f) - f.x) f.ax f.bx f.idetidx f.idet).2
    = true

/-- A face qualifies for the window `(tmin, tmax)`: accepted and its crossing
time lies strictly inside the window. -/
def faceQual (isPara : Bool) (ray : RayQ) (tmin tmax : ℚ) (f : Face) : Prop :=
  faceAccepts isPara ray f ∧ tmin < faceHitT ray f ∧ faceHitT ray f < tmax

/-- Loop invariant of the soup traversal: the running `time_max` never grows
past the initial bound, and a recorded hit always comes from a stored face
that qualifies for the original window. -/
def TravInv (isPara : Bool) (ray : RayQ) (tmin tmax0 : ℚ) (faces : List Face)
    (st : TravState) : Prop :=
  st.timeMax ≤ tmax0 ∧
  (st.isHit = false → st.timeMax = tmax0) ∧
  (st.isHit = true →
    ∃ f ∈ faces, faceQual isPara ray tmin tmax0 f ∧ st.timeMax = faceHitT ray f)

/-- An object's `ray_intersect` never reports a hit at or past the queried
`time_max`.  `Plane` and the soups satisfy this; `_sphere_hit` does not. -/
def HitWindowSound (f : ℚ → ℚ → HitRec) : Prop :=
  ∀ tl tu, (f tl tu).isHit = true → (f tl tu).time < tu

/-- Narrowing `time_max` to anywhere above a reported hit leaves the object's
result unchanged. -/
def HitWindowStable (f : ℚ → ℚ → HitRec) : Prop :=
  ∀ tl tu tu', (f tl tu).isHit = true → (f tl tu).time < tu' → tu' ≤ tu →
    f tl tu' = f tl tu

/-- A hit inside a narrower window is still a hit in the wider one, at a time
no larger. -/
def HitWindowMono (f : ℚ → ℚ → HitRec) : Prop :=
  ∀ tl tu tu', tu' ≤ tu → (f tl tu').isHit = true →
    (f tl tu).isHit = true ∧ (f tl tu).time ≤ (f tl tu').time

/-- The stored face indices of a tree's leaves, in depth-first order. -/
def leafIndices : TNode → List ℤ
  | .mk _ _ _ none none => []
  | .mk _ _ _ none (some d) => if d.isLeaf then [d.index] else leafIndices d
  | .mk _ _ _ (some c) none => if c.isLeaf then [c.index] else leafIndices c
  | .mk _ _ _ (some c) (some d) =>
      (if c.isLeaf then [c.index] else leafIndices c) ++
      (if d.isLeaf then [d.index] else leafIndices d)

/-- The shapes `split_aabb` actually produces: a single leaf child, two leaf
children, or two internal children. -/
inductive ShapeWF : TNode → Prop where
  | single : ∀ (cmin cmax : Vec3) (i : ℤ), 0 ≤ i →
      ShapeWF (.mk (-1) cmin cmax (some (leafNode i)) none)
  | double : ∀ (cmin cmax : Vec3) (i j : ℤ), 0 ≤ i → 0 ≤ j →
      ShapeWF (.mk (-1) cmin cmax (some (leafNode i)) (some (leafNode j)))
  | internal : ∀ (cmin cmax : Vec3) (l r : TNode), ShapeWF l → ShapeWF r →
      l.index = -1 → r.index = -1 → ShapeWF (.mk (-1) cmin cmax (some l) (some r))

/-- All `subn` slots of a flattened node list, in order. -/
def flatSlots (l : List FlatNode) : List ℤ := l.flatMap (fun nd => [nd.s0, nd.s1])

/-- Build state with three faces whose centroids sit at `x = 0, 10, 20`
(the faces themselves play no role in the partition). -/
def w7St : AState :=
  [(defaultFace, ⟨0, 0, 0⟩), (defaultFace, ⟨10, 0, 0⟩), (defaultFace, ⟨20, 0, 0⟩)]

/-! Concrete instances used by counterexamples and witnesses. -/

/-- A scene object backed by the sphere of the C2 counterexample (discriminant
`1`, exact square root `1`): queried with `time_max = 50` it reports a hit at
`t = 99`. -/
def badSphereObj : ℚ → ℚ → HitRec := fun tl tu =>
  sphereRayIntersect ⟨0, 0, 0⟩ 1 0 ⟨1, 1, 1⟩ ⟨⟨0, 0, 100⟩, ⟨0, 0, -1⟩⟩ tl tu 1

/-- A scene object backed by a concrete plane (`z = 0`, normal `+z`). -/
def wPlaneObj : ℚ → ℚ → HitRec := fun tl tu =>
  planeRayIntersect ⟨0, 0, 0⟩ ⟨0, 0, 1⟩ 0 ⟨1, 1, 1⟩ ⟨⟨0, 0, 5⟩, ⟨0, 0, -1⟩⟩ tl tu

/-- Two-face triangle soup: a small tilted-in-x triangle the test ray hits at
`t = 2`, plus a far face stretching the root box along the ray. -/
def c1Soup : FaceSoup :=
  soupAppend
    (soupAppend (soupNew 2 M_unknown ⟨1, 1, 1⟩)
      ⟨2, 2, -1⟩ ⟨2, -1, -1⟩ ⟨2, 0, 2⟩ 9 none none)
    ⟨10, 5, 0⟩ ⟨1/2, 5, 0⟩ ⟨1/2, 6, 0⟩ (19/2) none none

def c1Octree : List FlatNode := (buildFlat c1Soup.faces).getD []

def c1FacesB : List Face := (builtFaces c1Soup.faces).getD []

def c1Ray : RayQ := ⟨⟨0, 0, 0⟩, ⟨1, 0, 0⟩⟩

/-- A scene object backed by the BVH-guided traversal of the built `c1Soup`
along `c1Ray` (fuel `4` always suffices for this one-node tree, so the
`getD` default is never taken on the windows used below). -/
def c1SoupObj : ℚ → ℚ → HitRec := fun tl tu =>
  (soupRayIntersect false ⟨1, 1, 1⟩ c1FacesB c1Octree c1Ray tl tu 4).getD
    ⟨false, tu, Vec3.zero, ⟨0, 1, 0⟩, 0, ⟨1, 1, 1⟩, false⟩

/-- The face `c1Soup`'s first append stores. -/
def c1Face0 : Face := ⟨⟨2, -1, -1⟩, ⟨0, 3, 0⟩, ⟨0, 1, 3⟩, ⟨-1, 0, 0⟩, 0, 1/9, 0, ⟨1, 1, 1⟩⟩

/-- The face `c1Soup`'s second append stores. -/
def c1Face1 : Face := ⟨⟨1/2, 5, 0⟩, ⟨19/2, 0, 0⟩, ⟨0, 1, 0⟩, ⟨0, 0, -1⟩, 2, 2/19, 0, ⟨1, 1, 1⟩⟩

/-- Single-face soup used by witnesses: just the triangle the test ray hits. -/
def w1Soup : FaceSoup :=
  soupAppend (soupNew 1 M_unknown ⟨1, 1, 1⟩) ⟨2, 2, -1⟩ ⟨2, -1, -1⟩ ⟨2, 0, 2⟩ 9 none none

def w1Octree : List FlatNode := (buildFlat w1Soup.faces).getD []

def w1FacesB : List Face := (builtFaces w1Soup.faces).getD []

/-- Reversal of a corner triple `(a, x, b) ↦ (b, x, a)`: the in-facing `Box`
appends exactly the reversed triples of the out-facing one. -/
def swapTriple (t : Vec3 × Vec3 × Vec3) : Vec3 × Vec3 × Vec3 := (t.2.2, t.2.1, t.1)

/-- The C10 call sequence: `append(o1)`, `append(o2, "obj1")`,
`remove_obj("obj0")`, `append(o3)` (objects abstracted by numbers 1, 2, 3). -/
def s10a : SceneReg Nat := sceneAppend ⟨[], []⟩ 1 none

def s10b : SceneReg Nat := sceneAppend s10a 2 (some "obj1")

def s10c : SceneReg Nat := sceneRemove s10b "obj0"

def s10d : SceneReg Nat := sceneAppend s10c 3 none

/-!
## Theorems

First, small evaluation lemmas for the vector operations (so that concrete
runs can be computed by `norm_num` without unfolding the `ℚ` instances), then
the per-claim developments.
-/

theorem vadd_eval (a b c d e f : ℚ) : (⟨a, b, c⟩ : Vec3) + ⟨d, e, f⟩ = ⟨a+d, b+e, c+f⟩ := rfl

theorem vsub_eval (a b c d e f : ℚ) : (⟨a, b, c⟩ : Vec3) - ⟨d, e, f⟩ = ⟨a-d, b-e, c-f⟩ := rfl

theorem vneg_eval (a b c : ℚ) : -(⟨a, b, c⟩ : Vec3) = ⟨-a, -b, -c⟩ := rfl

theorem vsmul_eval (t a b c : ℚ) : t * (⟨a, b, c⟩ : Vec3) = ⟨t*a, t*b, t*c⟩ := rfl

theorem vdot_eval (a b c d e f : ℚ) : Vec3.dot ⟨a, b, c⟩ ⟨d, e, f⟩ = a*d + b*e + c*f := rfl

theorem vcross_eval (a b c d e f : ℚ) :
    Vec3.cross ⟨a, b, c⟩ ⟨d, e, f⟩ = ⟨b*f - c*e, c*d - a*f, a*e - b*d⟩ := rfl

theorem vdivQ_eval (a b c t : ℚ) : Vec3.divQ ⟨a, b, c⟩ t = ⟨a/t, b/t, c/t⟩ := rfl

theorem vnth0 (a b c : ℚ) : Vec3.nth ⟨a, b, c⟩ 0 = a := rfl

theorem vnth1 (a b c : ℚ) : Vec3.nth ⟨a, b, c⟩ 1 = b := rfl

theorem vnth2 (a b c : ℚ) : Vec3.nth ⟨a, b, c⟩ 2 = c := rfl

theorem vcmin_eval (a b c d e f : ℚ) :
    Vec3.cmin ⟨a, b, c⟩ ⟨d, e, f⟩ = ⟨min a d, min b e, min c f⟩ := rfl

theorem vcmax_eval (a b c d e f : ℚ) :
    Vec3.cmax ⟨a, b, c⟩ ⟨d, e, f⟩ = ⟨max a d, max b e, max c f⟩ := rfl

theorem vabs_eval (a b c : ℚ) : Vec3.vabs ⟨a, b, c⟩ = ⟨|a|, |b|, |c|⟩ := rfl

theorem vzero_eval : Vec3.zero = ⟨0, 0, 0⟩ := rfl

theorem vmk_eq (a b c d e f : ℚ) :
    (Vec3.mk a b c = Vec3.mk d e f) ↔ (a = d ∧ b = e ∧ c = f) := by
  constructor
  · intro h; exact ⟨congrArg Vec3.x h, congrArg Vec3.y h, congrArg Vec3.z h⟩
  · intro h; rw [h.1, h.2.1, h.2.2]

/-! ### C1: BVH traversal versus brute-force scan -/

theorem c1_faces_eval : c1Soup.faces = [c1Face0, c1Face1] := by
  norm_num [c1Soup, soupAppend, soupNew, parallelogramInit, c1Face0, c1Face1,
    vsub_eval, vcross_eval, vdivQ_eval, M_unknown, Face.mk.injEq, vmk_eq]

theorem c1_built_eval : builtFaces c1Soup.faces = some [c1Face0, c1Face1] ∧
    buildFlat c1Soup.faces = some [⟨⟨1/2, -1, -1⟩, ⟨10, 6, 2⟩, -1, -2⟩] := by
  rw [c1_faces_eval]
  norm_num [builtFaces, buildFlat, aabbBuild, mkState, splitAabb, computeBox, flattenNode,
    objCenter, faceAt, centerAt, defaultPair, defaultFace, List.range',
    vcmin_eval, vcmax_eval, vabs_eval, vadd_eval, vsub_eval, vdivQ_eval, vzero_eval,
    c1Face0, c1Face1, leafNode, TNode.isLeaf, TNode.indexEncode, TNode.index,
    FlatNode.mk.injEq, vmk_eq]

theorem c1_trav_eval :
    soupRayIntersect false ⟨1, 1, 1⟩ [c1Face0, c1Face1]
      [⟨⟨1/2, -1, -1⟩, ⟨10, 6, 2⟩, -1, -2⟩] c1Ray 1 3 4 =
      some ⟨false, 3, ⟨0, 0, 0⟩, ⟨0, 1, 0⟩, 0, ⟨1, 1, 1⟩, false⟩ := by
  norm_num [soupRayIntersect, travLoop, travSlot, travInit, faceTest, c1Ray,
    rayIntersectSolidBox, solidBoxAxis, solidBoxFace, rayAt, List.foldl,
    vnth0, vnth1, vnth2, vadd_eval, vsub_eval, vsmul_eval, vzero_eval,
    zeroFlatNode, HitRec.mk.injEq, vmk_eq]

theorem c1_brute_eval :
    bruteForceIntersect false ⟨1, 1, 1⟩ [c1Face0, c1Face1] c1Ray 1 3 =
      ⟨true, 2, ⟨2, 0, 0⟩, ⟨-1, 0, 0⟩, 0, ⟨1, 1, 1⟩, false⟩ := by
  norm_num [bruteForceIntersect, bruteGo, faceTest, travInit, c1Ray, c1Face0, c1Face1,
    parallelogramAlphaBeta, checkAb, checkAbTriangle, rayAt, vdot_eval, vsub_eval,
    vadd_eval, vsmul_eval, vzero_eval, vmk_eq, HitRec.mk.injEq]

/-- C1, counterexample: on a freshly built two-face triangle soup and the ray
from the origin along `+x` with `time_min = 1 < time_max = 3`, the BVH-guided
`ray_intersect` reports no hit (the root box's entry crossing is at `t = 1/2
≤ time_min` and its exit at `t = 10 ≥ time_max`, so the solid-box test culls
the root), while the brute-force scan over the same stored faces finds a hit
at `t = 2`.  The claimed equality of the two results therefore fails. -/
theorem C1_counterexample :
    soupRayIntersect false ⟨1, 1, 1⟩ c1FacesB c1Octree c1Ray 1 3 4 =
      some ⟨false, 3, ⟨0, 0, 0⟩, ⟨0, 1, 0⟩, 0, ⟨1, 1, 1⟩, false⟩ ∧
    (bruteForceIntersect false ⟨1, 1, 1⟩ c1FacesB c1Ray 1 3).isHit = true ∧
    (bruteForceIntersect false ⟨1, 1, 1⟩ c1FacesB c1Ray 1 3).time = 2 := by
  have hb : c1FacesB = [c1Face0, c1Face1] := by
    rw [c1FacesB, c1_built_eval.1]; rfl
  have ho : c1Octree = [⟨⟨1/2, -1, -1⟩, ⟨10, 6, 2⟩, -1, -2⟩] := by
    rw [c1Octree, c1_built_eval.2]; rfl
  rw [hb, ho, c1_trav_eval, c1_brute_eval]
  exact ⟨rfl, rfl, rfl⟩

theorem vdot_zero_right (v : Vec3) : Vec3.dot v Vec3.zero = 0 := by
  simp [Vec3.dot, Vec3.zero]

theorem getD_mem_or {α : Type} (l : List α) (i : Nat) (d : α) :
    l.getD i d ∈ l ∨ l.getD i d = d := by
  rcases h : l[i]? with _ | a
  · right; simp [List.getD, h]
  · left
    have ha : a ∈ l := by
      rcases List.getElem?_eq_some_iff.mp h with ⟨hlt, hget⟩
      exact hget ▸ List.getElem_mem hlt
    simpa [List.getD, h] using ha

theorem faceTest_cases (isPara : Bool) (ray : RayQ) (tmin : ℚ) (item : Face)
    (st : TravState) :
    faceTest isPara ray tmin item st = st ∨
    (faceTest isPara ray tmin item st =
        ⟨true, faceHitT ray item, rayAt ray (faceHitT ray item), item.n,
          item.material, item.color⟩ ∧
      faceAccepts isPara ray item ∧
      tmin < faceHitT ray item ∧ faceHitT ray item < st.timeMax) := by
  unfold faceTest faceAccepts faceHitT
  simp only []
  split_ifs with h1 h2 h3
  · exact Or.inr ⟨rfl, ⟨h1, h3⟩, h2.1, h2.2⟩
  · exact Or.inl rfl
  · exact Or.inl rfl
  · exact Or.inl rfl

theorem faceTest_accepted (isPara : Bool) (ray : RayQ) (tmin : ℚ) (item : Face)
    (st : TravState) (hacc : faceAccepts isPara ray item)
    (h1 : tmin < faceHitT ray item) (h2 : faceHitT ray item < st.timeMax) :
    faceTest isPara ray tmin item st =
      ⟨true, faceHitT ray item, rayAt ray (faceHitT ray item), item.n,
        item.material, item.color⟩ := by
  have hacc' := hacc
  unfold faceAccepts faceHitT at hacc'
  unfold faceHitT at h1 h2
  unfold faceTest
  simp only []
  rw [if_pos hacc'.1, if_pos ⟨h1, h2⟩, if_pos hacc'.2]
  unfold faceHitT
  rfl

theorem faceTest_timeMax_le (isPara : Bool) (ray : RayQ) (tmin : ℚ) (item : Face)
    (st : TravState) : (faceTest isPara ray tmin item st).timeMax ≤ st.timeMax := by
  rcases faceTest_cases isPara ray tmin item st with h | h
  · rw [h]
  · rw [h.1]; exact le_of_lt h.2.2.2

theorem faceTest_isHit_mono (isPara : Bool) (ray : RayQ) (tmin : ℚ) (item : Face)
    (st : TravState) (h : st.isHit = true) :
    (faceTest isPara ray tmin item st).isHit = true := by
  rcases faceTest_cases isPara ray tmin item st with he | he
  · rw [he]; exact h
  · rw [he.1]

theorem TravInv_faceTest (isPara : Bool) (ray : RayQ) (tmin tmax0 : ℚ)
    (faces : List Face) (item : Face) (st : TravState)
    (h : TravInv isPara ray tmin tmax0 faces st)
    (hmem : item ∈ faces ∨ item = defaultFace) :
    TravInv isPara ray tmin tmax0 faces (faceTest isPara ray tmin item st) := by
  rcases faceTest_cases isPara ray tmin item st with he | ⟨he, hacc, h1, h2⟩
  · rw [he]; exact h
  · rw [he]
    have hlt : faceHitT ray item < tmax0 := lt_of_lt_of_le h2 h.1
    refine ⟨le_of_lt hlt, by intro hc; exact absurd hc (by simp), ?_⟩
    intro _
    rcases hmem with hm | hm
    · exact ⟨item, hm, ⟨hacc, h1, hlt⟩, rfl⟩
    · exfalso
      have := hacc.1
      rw [hm] at this
      simp [defaultFace, vdot_zero_right] at this

theorem TravInv_travSlot (isPara : Bool) (ray : RayQ) (tmin tmax0 : ℚ)
    (faces : List Face) (slot : ℤ) (stack : List Nat) (st : TravState)
    (h : TravInv isPara ray tmin tmax0 faces st) :
    TravInv isPara ray tmin tmax0 faces
      (travSlot isPara faces ray tmin slot stack st).2 := by
  unfold travSlot
  split_ifs with h1 h2
  · exact h
  · exact TravInv_faceTest isPara ray tmin tmax0 faces _ st h
      (getD_mem_or faces _ defaultFace)
  · exact h

theorem TravInv_travLoop (isPara : Bool) (ray : RayQ) (tmin tmax0 : ℚ)
    (faces : List Face) (octree : List FlatNode) :
    ∀ (fuel : Nat) (stack : List Nat) (st st' : TravState),
      TravInv isPara ray tmin tmax0 faces st →
      travLoop isPara faces octree ray tmin fuel stack st = some st' →
      TravInv isPara ray tmin tmax0 faces st' := by
  intro fuel
  induction fuel with
  | zero => intro stack st st' _ hloop; simp [travLoop] at hloop
  | succ fu ih =>
      intro stack st st' h hloop
      cases stack with
      | nil =>
          simp [travLoop] at hloop
          rw [← hloop]; exact h
      | cons n rest =>
          rw [travLoop] at hloop
          dsimp only [] at hloop
          split at hloop
          · exact ih rest st st' h hloop
          · refine ih _ _ st' ?_ hloop
            exact TravInv_travSlot isPara ray tmin tmax0 faces _ _ _
              (TravInv_travSlot isPara ray tmin tmax0 faces _ _ _ h)

theorem bruteGo_timeMax_le (isPara : Bool) (ray : RayQ) (tmin : ℚ) :
    ∀ (faces : List Face) (st : TravState),
      (bruteGo isPara ray tmin faces st).timeMax ≤ st.timeMax := by
  intro faces
  induction faces with
  | nil => intro st; rw [bruteGo]
  | cons g rest ih =>
      intro st
      rw [bruteGo]
      exact le_trans (ih _) (faceTest_timeMax_le isPara ray tmin g st)

theorem bruteGo_isHit_mono (isPara : Bool) (ray : RayQ) (tmin : ℚ) :
    ∀ (faces : List Face) (st : TravState), st.isHit = true →
      (bruteGo isPara ray tmin faces st).isHit = true := by
  intro faces
  induction faces with
  | nil => intro st h; rw [bruteGo]; exact h
  | cons g rest ih =>
      intro st h
      rw [bruteGo]
      exact ih _ (faceTest_isHit_mono isPara ray tmin g st h)

theorem bruteGo_catch (isPara : Bool) (ray : RayQ) (tmin : ℚ) :
    ∀ (faces : List Face) (st : TravState) (f : Face), f ∈ faces →
      faceAccepts isPara ray f → tmin < faceHitT ray f →
      (faceHitT ray f < st.timeMax ∨ (st.isHit = true ∧ st.timeMax ≤ faceHitT ray f)) →
      (bruteGo isPara ray tmin faces st).isHit = true ∧
      (bruteGo isPara ray tmin faces st).timeMax ≤ faceHitT ray f := by
  intro faces
  induction faces with
  | nil => intro st f hf; exact absurd hf (List.not_mem_nil f)
  | cons g rest ih =>
      intro st f hf hacc ht hdisj
      rw [bruteGo]
      rcases List.mem_cons.mp hf with rfl | hf'
      · rcases hdisj with hlt | ⟨hhit, hle⟩
        · rw [faceTest_accepted isPara ray tmin f st hacc ht hlt]
          refine ⟨bruteGo_isHit_mono isPara ray tmin rest _ rfl, ?_⟩
          exact bruteGo_timeMax_le isPara ray tmin rest _
        · refine ⟨bruteGo_isHit_mono isPara ray tmin rest _
            (faceTest_isHit_mono isPara ray tmin f st hhit), ?_⟩
          exact le_trans (le_trans (bruteGo_timeMax_le isPara ray tmin rest _)
            (faceTest_timeMax_le isPara ray tmin f st)) hle
      · by_cases hlt : faceHitT ray f < (faceTest isPara ray tmin g st).timeMax
        · exact ih _ f hf' hacc ht (Or.inl hlt)
        · push_neg at hlt
          refine ih _ f hf' hacc ht (Or.inr ⟨?_, hlt⟩)
          rcases hdisj with hd | ⟨hhit, _⟩
          · rcases faceTest_cases isPara ray tmin g st with he | he
            · exact absurd (lt_of_lt_of_le hd (le_of_eq (congrArg TravState.timeMax he).symm))
                (not_lt.mpr hlt)
            · rw [he.1]
          · exact faceTest_isHit_mono isPara ray tmin g st hhit

/-- C1, amended claim: the BVH-guided `ray_intersect` is *sound* with respect
to the brute-force scan — whenever the traversal reports a hit, its hit time
is the plane-crossing time of a stored face that passes the same acceptance
test strictly inside the original window, and the brute-force scan also
reports a hit, at a time no larger.  (Full equality fails: the solid-box test
culls boxes whose boundary crossings fall outside the window even when a face
inside the box is hit inside the window, see the counterexample.) -/
theorem C1_bvh_sound_wrt_brute (isPara : Bool) (soupColor : Vec3) (faces : List Face)
    (octree : List FlatNode) (ray : RayQ) (tmin tmax : ℚ) (fuel : Nat) (res : HitRec)
    (hrun : soupRayIntersect isPara soupColor faces octree ray tmin tmax fuel = some res)
    (hhit : res.isHit = true) :
    (∃ f ∈ faces, faceQual isPara ray tmin tmax f ∧ res.time = faceHitT ray f) ∧
    (bruteForceIntersect isPara soupColor faces ray tmin tmax).isHit = true ∧
    (bruteForceIntersect isPara soupColor faces ray tmin tmax).time ≤ res.time := by
  unfold soupRayIntersect at hrun
  rcases hloop : travLoop isPara faces octree ray tmin fuel [0] (travInit soupColor tmax)
    with _ | st'
  · rw [hloop] at hrun; exact absurd hrun (by simp)
  · rw [hloop] at hrun
    have hres : res = ⟨st'.isHit, st'.timeMax, st'.point, st'.normal, st'.material,
        st'.color, false⟩ := by
      have := hrun
      simp at this
      exact this.symm
    have hinv0 : TravInv isPara ray tmin tmax faces (travInit soupColor tmax) := by
      refine ⟨le_refl _, fun _ => rfl, fun hc => absurd hc (by simp [travInit])⟩
    have hinv := TravInv_travLoop isPara ray tmin tmax faces octree fuel [0] _ st'
      hinv0 hloop
    have hst : st'.isHit = true := by rw [hres] at hhit; exact hhit
    rcases hinv.2.2 hst with ⟨f, hfmem, hqual, htime⟩
    have hrtime : res.time = faceHitT ray f := by rw [hres]; exact htime
    refine ⟨⟨f, hfmem, hqual, hrtime⟩, ?_⟩
    have hbr := bruteGo_catch isPara ray tmin faces (travInit soupColor tmax) f hfmem
      hqual.1 hqual.2.1 (Or.inl (by simpa [travInit] using hqual.2.2))
    unfold bruteForceIntersect
    refine ⟨hbr.1, ?_⟩
    rw [hrtime]
    exact hbr.2

/-- The traversal soundness theorem instantiated on a one-face soup whose
flattened tree the ray does hit (the face of `c1Soup`'s first append, hit at
`t = 2` with window `(1, 3)`). -/
theorem w1_trav_eval :
    soupRayIntersect false ⟨1, 1, 1⟩ [c1Face0] [⟨⟨2, -1, -1⟩, ⟨2, 2, 2⟩, -1, 0⟩]
      c1Ray 1 3 4 = some ⟨true, 2, ⟨2, 0, 0⟩, ⟨-1, 0, 0⟩, 0, ⟨1, 1, 1⟩, false⟩ := by
  norm_num [soupRayIntersect, travLoop, travSlot, travInit, faceTest, c1Ray, c1Face0,
    rayIntersectSolidBox, solidBoxAxis, solidBoxFace, rayAt, List.foldl,
    parallelogramAlphaBeta, checkAb, checkAbTriangle,
    vnth0, vnth1, vnth2, vadd_eval, vsub_eval, vsmul_eval, vzero_eval, vdot_eval,
    zeroFlatNode, HitRec.mk.injEq, vmk_eq]

/-- C1 witness input: the one-face tree really is what `build_tree` produces. -/
theorem w1_built_eval : builtFaces [c1Face0] = some [c1Face0] ∧
    buildFlat [c1Face0] = some [⟨⟨2, -1, -1⟩, ⟨2, 2, 2⟩, -1, 0⟩] := by
  norm_num [builtFaces, buildFlat, aabbBuild, mkState, splitAabb, computeBox, flattenNode,
    objCenter, faceAt, centerAt, defaultPair, defaultFace, List.range',
    vcmin_eval, vcmax_eval, vabs_eval, vadd_eval, vsub_eval, vdivQ_eval, vzero_eval,
    c1Face0, leafNode, TNode.isLeaf, TNode.indexEncode, TNode.index,
    FlatNode.mk.injEq, vmk_eq]

theorem C1_bvh_sound_wrt_brute_witness :
    (∃ f ∈ [c1Face0], faceQual false c1Ray 1 3 f ∧
      (HitRec.mk true 2 ⟨2, 0, 0⟩ ⟨-1, 0, 0⟩ 0 ⟨1, 1, 1⟩ false).time = faceHitT c1Ray f) ∧
    (bruteForceIntersect false ⟨1, 1, 1⟩ [c1Face0] c1Ray 1 3).isHit = true ∧
    (bruteForceIntersect false ⟨1, 1, 1⟩ [c1Face0] c1Ray 1 3).time ≤
      (HitRec.mk true 2 ⟨2, 0, 0⟩ ⟨-1, 0, 0⟩ 0 ⟨1, 1, 1⟩ false).time :=
  C1_bvh_sound_wrt_brute false ⟨1, 1, 1⟩ [c1Face0] [⟨⟨2, -1, -1⟩, ⟨2, 2, 2⟩, -1, 0⟩]
    c1Ray 1 3 4 ⟨true, 2, ⟨2, 0, 0⟩, ⟨-1, 0, 0⟩, 0, ⟨1, 1, 1⟩, false⟩ w1_trav_eval rfl

/-! ### C2: hit times versus the query window -/

theorem sceneGo_time_bounds (tmin : ℚ) :
    ∀ (objs : List (ℚ → ℚ → HitRec)) (acc : HitRec), tmin < acc.time →
      tmin < (sceneGo objs tmin acc).time ∧ (sceneGo objs tmin acc).time ≤ acc.time := by
  intro objs
  induction objs with
  | nil => intro acc h; rw [sceneGo]; exact ⟨h, le_refl _⟩
  | cons g rest ih =>
      intro acc h
      rw [sceneGo]
      split_ifs with h1 h2
      · have hrec := ih ⟨true, (g tmin acc.time).time, (g tmin acc.time).point,
          (g tmin acc.time).normal, (g tmin acc.time).material, (g tmin acc.time).color,
          (g tmin acc.time).inside⟩ h1.2
        exact ⟨hrec.1, le_trans hrec.2 (le_of_lt h2)⟩
      · exact ih _ h
      · exact ih acc h

/-- C2, amended claim: the window invariant holds for `Plane` (with a closed
lower end: `time_min ≤ hit_time < time_max`), for the soup traversal
(`time_min < hit_time < time_max`, strictly), and for `Scene`
(`time_min < hit_time ≤ time_max`); the sphere path violates both ends of the
claimed `time_min < hit_time ≤ time_max`, see the counterexample. -/
theorem C2_hit_time_window :
    (∀ (center normal : Vec3) (material : ℤ) (color : Vec3) (ray : RayQ) (tmin tmax : ℚ),
      (planeRayIntersect center normal material color ray tmin tmax).isHit = true →
      tmin ≤ (planeRayIntersect center normal material color ray tmin tmax).time ∧
      (planeRayIntersect center normal material color ray tmin tmax).time < tmax) ∧
    (∀ (isPara : Bool) (soupColor : Vec3) (faces : List Face) (octree : List FlatNode)
      (ray : RayQ) (tmin tmax : ℚ) (fuel : Nat) (res : HitRec),
      soupRayIntersect isPara soupColor faces octree ray tmin tmax fuel = some res →
      res.isHit = true → tmin < res.time ∧ res.time < tmax) ∧
    (∀ (objs : List (ℚ → ℚ → HitRec)) (tmin tmax : ℚ), tmin < tmax →
      tmin < (sceneRayIntersect objs tmin tmax).time ∧
      (sceneRayIntersect objs tmin tmax).time ≤ tmax) := by
  refine ⟨?_, ?_, ?_⟩
  · intro center normal material color ray tmin tmax
    unfold planeRayIntersect
    simp only []
    split_ifs with h1 h2 h3
    · intro h; simp at h
    · intro _; exact ⟨not_lt.mp h2, h3⟩
    · intro h; simp at h
    · intro h; simp at h
  · intro isPara soupColor faces octree ray tmin tmax fuel res hrun hhit
    unfold soupRayIntersect at hrun
    rcases hloop : travLoop isPara faces octree ray tmin fuel [0] (travInit soupColor tmax)
      with _ | st'
    · rw [hloop] at hrun; exact absurd hrun (by simp)
    · rw [hloop] at hrun
      have hres : res = ⟨st'.isHit, st'.timeMax, st'.point, st'.normal, st'.material,
          st'.color, false⟩ := by
        have := hrun; simp at this; exact this.symm
      have hinv := TravInv_travLoop isPara ray tmin tmax faces octree fuel [0] _ st'
        ⟨le_refl _, fun _ => rfl, fun hc => absurd hc (by simp [travInit])⟩ hloop
      have hst : st'.isHit = true := by rw [hres] at hhit; exact hhit
      rcases hinv.2.2 hst with ⟨f, _, hqual, htime⟩
      rw [hres]
      simp only []
      rw [htime]
      exact ⟨hqual.2.1, hqual.2.2⟩
  · intro objs tmin tmax ht
    exact sceneGo_time_bounds tmin objs _ ht

/-- C2, counterexample: both ends of the claimed `time_min < hit_time ≤
time_max` invariant fail.  A sphere queried with `(time_min, time_max) =
(1/2, 50)` returns a hit at `t = 99 > time_max` (the code only guards the
discriminant and `√disc` against the window, never the root it returns; the
square root `1` of the discriminant is exact here), and a plane whose
crossing lands exactly on `time_min = 5` still reports a hit, violating the
strict lower bound. -/
theorem C2_counterexample :
    (sphereRayIntersect ⟨0, 0, 0⟩ 1 0 ⟨1, 1, 1⟩ ⟨⟨0, 0, 100⟩, ⟨0, 0, -1⟩⟩ (1/2) 50 1 =
      ⟨true, 99, ⟨0, 0, 1⟩, ⟨0, 0, 1⟩, 0, ⟨1, 1, 1⟩, false⟩) ∧
    ¬((99 : ℚ) ≤ 50) ∧ ((1 : ℚ)/2 < 50) ∧
    ((1 : ℚ) * 1 =
      Vec3.dot ⟨0, 0, -1⟩ (⟨0, 0, 100⟩ - (⟨0, 0, 0⟩ : Vec3)) *
        Vec3.dot ⟨0, 0, -1⟩ (⟨0, 0, 100⟩ - (⟨0, 0, 0⟩ : Vec3)) -
      (Vec3.dot (⟨0, 0, 100⟩ - (⟨0, 0, 0⟩ : Vec3)) (⟨0, 0, 100⟩ - (⟨0, 0, 0⟩ : Vec3)) - 1 * 1)) ∧
    ((planeRayIntersect ⟨0, 0, 0⟩ ⟨0, 0, 1⟩ 0 ⟨1, 1, 1⟩ ⟨⟨0, 0, 5⟩, ⟨0, 0, -1⟩⟩ 5 10).isHit
        = true) ∧
    (planeRayIntersect ⟨0, 0, 0⟩ ⟨0, 0, 1⟩ 0 ⟨1, 1, 1⟩ ⟨⟨0, 0, 5⟩, ⟨0, 0, -1⟩⟩ 5 10).time = 5 ∧
    ¬((5 : ℚ) < 5) := by
  norm_num [sphereRayIntersect, sphereHit, planeRayIntersect, rayAt, vdot_eval, vsub_eval,
    vadd_eval, vsmul_eval, vdivQ_eval, vzero_eval, vmk_eq, HitRec.mk.injEq, Prod.ext_iff]

theorem C2_hit_time_window_witness :
    ((1 : ℚ) ≤ (planeRayIntersect ⟨0, 0, 0⟩ ⟨0, 0, 1⟩ 0 ⟨1, 1, 1⟩
        ⟨⟨0, 0, 5⟩, ⟨0, 0, -1⟩⟩ 1 10).time ∧
      (planeRayIntersect ⟨0, 0, 0⟩ ⟨0, 0, 1⟩ 0 ⟨1, 1, 1⟩
        ⟨⟨0, 0, 5⟩, ⟨0, 0, -1⟩⟩ 1 10).time < 10) ∧
    ((1 : ℚ) < (HitRec.mk true 2 ⟨2, 0, 0⟩ ⟨-1, 0, 0⟩ 0 ⟨1, 1, 1⟩ false).time ∧
      (HitRec.mk true 2 ⟨2, 0, 0⟩ ⟨-1, 0, 0⟩ 0 ⟨1, 1, 1⟩ false).time < 3) ∧
    ((0 : ℚ) < (sceneRayIntersect [] 0 1).time ∧ (sceneRayIntersect [] 0 1).time ≤ 1) := by
  refine ⟨?_, ?_, ?_⟩
  · refine C2_hit_time_window.1 ⟨0, 0, 0⟩ ⟨0, 0, 1⟩ 0 ⟨1, 1, 1⟩ ⟨⟨0, 0, 5⟩, ⟨0, 0, -1⟩⟩ 1 10 ?_
    norm_num [planeRayIntersect, vdot_eval, vsub_eval]
  · exact C2_hit_time_window.2.1 false ⟨1, 1, 1⟩ [c1Face0]
      [⟨⟨2, -1, -1⟩, ⟨2, 2, 2⟩, -1, 0⟩] c1Ray 1 3 4 _ w1_trav_eval rfl
  · exact C2_hit_time_window.2.2 [] 0 1 (by norm_num)

/-! ### C3: ray starting inside a sphere -/

/-- C3: evaluation at the failing input.  The ray starts at `(0,0,1)` strictly
inside the sphere of radius `2` about the origin (conjunct 2) and the supplied
square root `2` of the discriminant is exact (conjuncts 3 and 4), yet
`_sphere_hit` classifies the configuration as inside and returns hit time
`t2 = -3 < 0` — the root *behind* the origin — contradicting the claimed
positive hit time (the code's own diagram `( <-- t2 -- O-> -- t1 --> )` marks
`t1 = 1` as the forward root). -/
theorem C3_inside_negative_hit_time :
    sphereHit ⟨0, 0, 0⟩ 2 ⟨⟨0, 0, 1⟩, ⟨0, 0, 1⟩⟩ (1/10000) 1000000000 2 =
      (true, -3, ⟨0, 0, -2⟩, ⟨0, 0, 1⟩, true) ∧
    Vec3.dot (⟨0, 0, 1⟩ - (⟨0, 0, 0⟩ : Vec3)) (⟨0, 0, 1⟩ - (⟨0, 0, 0⟩ : Vec3)) < 2 * 2 ∧
    (0 : ℚ) ≤ 2 ∧
    ((2 : ℚ) * 2 =
      Vec3.dot ⟨0, 0, 1⟩ (⟨0, 0, 1⟩ - (⟨0, 0, 0⟩ : Vec3)) *
        Vec3.dot ⟨0, 0, 1⟩ (⟨0, 0, 1⟩ - (⟨0, 0, 0⟩ : Vec3)) -
      (Vec3.dot (⟨0, 0, 1⟩ - (⟨0, 0, 0⟩ : Vec3)) (⟨0, 0, 1⟩ - (⟨0, 0, 0⟩ : Vec3)) - 2 * 2)) ∧
    (-3 : ℚ) < 0 := by
  norm_num [sphereHit, rayAt, vdot_eval, vsub_eval, vadd_eval, vsmul_eval, vdivQ_eval,
    vzero_eval, vmk_eq, Prod.ext_iff]

/-! ### C5: the plane acceptance window -/

/-- C5, amended claim: `Plane.ray_intersect` hits iff `direction·normal < 0`
and `time_min ≤ t < time_max` for the crossing `t` (the source rejects only
`t < time_min`, so the boundary `t = time_min` is accepted — the claimed
strict lower bound fails, see the counterexample); in particular
`direction·normal ≥ 0` never hits, and a reported hit carries `t` itself. -/
theorem C5_plane_hit_iff (center normal : Vec3) (material : ℤ) (color : Vec3)
    (ray : RayQ) (tmin tmax : ℚ) :
    ((planeRayIntersect center normal material color ray tmin tmax).isHit = true ↔
      Vec3.dot ray.direction normal < 0 ∧ tmin ≤ planeT center normal ray ∧
        planeT center normal ray < tmax) ∧
    (0 ≤ Vec3.dot ray.direction normal →
      (planeRayIntersect center normal material color ray tmin tmax).isHit = false) ∧
    ((planeRayIntersect center normal material color ray tmin tmax).isHit = true →
      (planeRayIntersect center normal material color ray tmin tmax).time =
        planeT center normal ray) := by
  unfold planeRayIntersect planeT
  simp only []
  split_ifs with h1 h2 h3
  · refine ⟨?_, ?_, ?_⟩
    · simp only [Bool.false_eq_true, false_iff]
      intro hc
      exact absurd hc.2.1 (not_le.mpr h2)
    · intro hge; exact absurd h1 (not_lt.mpr hge)
    · intro h; simp at h
  · refine ⟨?_, ?_, ?_⟩
    · simp only [true_iff]
      exact ⟨h1, not_lt.mp h2, h3⟩
    · intro hge; exact absurd h1 (not_lt.mpr hge)
    · intro _; rfl
  · refine ⟨?_, ?_, ?_⟩
    · simp only [Bool.false_eq_true, false_iff]
      intro hc
      exact absurd hc.2.2 h3
    · intro hge; exact absurd h1 (not_lt.mpr hge)
    · intro h; simp at h
  · refine ⟨?_, ?_, ?_⟩
    · simp only [Bool.false_eq_true, false_iff]
      intro hc
      exact absurd hc.1 h1
    · intro _; rfl
    · intro h; simp at h

/-- C5, counterexample: a crossing landing exactly on `time_min = 5` is
accepted, so "hit only if `time_min < t`" is false as stated. -/
theorem C5_counterexample :
    (planeRayIntersect ⟨0, 0, 0⟩ ⟨0, 0, 1⟩ 0 ⟨1, 1, 1⟩ ⟨⟨0, 0, 5⟩, ⟨0, 0, -1⟩⟩ 5 10).isHit
      = true ∧
    planeT ⟨0, 0, 0⟩ ⟨0, 0, 1⟩ ⟨⟨0, 0, 5⟩, ⟨0, 0, -1⟩⟩ = 5 ∧ ¬((5 : ℚ) < 5) := by
  norm_num [planeRayIntersect, planeT, rayAt, vdot_eval, vsub_eval, vadd_eval, vsmul_eval]

theorem C5_plane_hit_iff_witness :
    (planeRayIntersect ⟨0, 0, 0⟩ ⟨0, 0, 1⟩ 0 ⟨1, 1, 1⟩ ⟨⟨0, 0, 5⟩, ⟨0, 0, -1⟩⟩ 4 10).isHit
      = true ∧
    (planeRayIntersect ⟨0, 0, 0⟩ ⟨0, 0, 1⟩ 0 ⟨1, 1, 1⟩ ⟨⟨0, 0, 5⟩, ⟨0, 0, -1⟩⟩ 4 10).time =
      planeT ⟨0, 0, 0⟩ ⟨0, 0, 1⟩ ⟨⟨0, 0, 5⟩, ⟨0, 0, -1⟩⟩ := by
  have hiff := C5_plane_hit_iff ⟨0, 0, 0⟩ ⟨0, 0, 1⟩ 0 ⟨1, 1, 1⟩ ⟨⟨0, 0, 5⟩, ⟨0, 0, -1⟩⟩ 4 10
  have hh : (planeRayIntersect ⟨0, 0, 0⟩ ⟨0, 0, 1⟩ 0 ⟨1, 1, 1⟩
      ⟨⟨0, 0, 5⟩, ⟨0, 0, -1⟩⟩ 4 10).isHit = true := by
    refine hiff.1.mpr ?_
    norm_num [planeT, vdot_eval, vsub_eval]
  exact ⟨hh, hiff.2.2 hh⟩

/-! ### C9: append of degenerate and proper faces -/

theorem pInit_area (a x b : Vec3) (area : ℚ) : (parallelogramInit a x b area).area = area := rfl

/-- C9: with spare capacity and an exact area oracle (`0 ≤ area`, `area² =
‖(b−x)×(a−x)‖²`), `append` is a silent no-op when the area does not exceed
the `1e-12` threshold, and stores exactly one new face (incrementing
`face_count` by one) when it does. -/
theorem C9_append_behavior :
    (∀ (s : FaceSoup) (a x b : Vec3) (area : ℚ) (material : Option ℤ) (color : Option Vec3),
      0 ≤ area →
      area * area = Vec3.dot (Vec3.cross (b - x) (a - x)) (Vec3.cross (b - x) (a - x)) →
      s.faces.length < s.cap →
      area ≤ 1 / 1000000000000 →
      soupAppend s a x b area material color = s) ∧
    (∀ (s : FaceSoup) (a x b : Vec3) (area : ℚ) (material : Option ℤ) (color : Option Vec3),
      0 ≤ area →
      area * area = Vec3.dot (Vec3.cross (b - x) (a - x)) (Vec3.cross (b - x) (a - x)) →
      s.faces.length < s.cap →
      area > 1 / 1000000000000 →
      (soupAppend s a x b area material color).faces =
        s.faces ++ [⟨x, (parallelogramInit a x b area).ax, (parallelogramInit a x b area).bx,
          (parallelogramInit a x b area).n, (parallelogramInit a x b area).detidx,
          (parallelogramInit a x b area).idet, material.getD s.material, color.getD s.color⟩] ∧
      (soupAppend s a x b area material color).faces.length = s.faces.length + 1) := by
  constructor
  · intro s a x b area material color _ _ _ hle
    unfold soupAppend
    rw [if_neg]
    rw [pInit_area]
    exact not_lt.mpr hle
  · intro s a x b area material color _ _ _ hgt
    unfold soupAppend
    rw [if_pos (by rw [pInit_area]; exact hgt)]
    exact ⟨rfl, by simp⟩

theorem C9_append_behavior_witness :
    soupAppend (soupNew 4 7 ⟨1, 1, 1⟩) ⟨0, 0, 0⟩ ⟨0, 0, 0⟩ ⟨0, 0, 0⟩ 0 none none =
      soupNew 4 7 ⟨1, 1, 1⟩ ∧
    (soupAppend (soupNew 4 7 ⟨1, 1, 1⟩) ⟨2, 2, -1⟩ ⟨2, -1, -1⟩ ⟨2, 0, 2⟩ 9 none
        none).faces.length = (soupNew 4 7 ⟨1, 1, 1⟩).faces.length + 1 := by
  constructor
  · refine C9_append_behavior.1 (soupNew 4 7 ⟨1, 1, 1⟩) ⟨0, 0, 0⟩ ⟨0, 0, 0⟩ ⟨0, 0, 0⟩ 0
      none none (le_refl 0) ?_ ?_ ?_
    · norm_num [vsub_eval, vcross_eval, vdot_eval]
    · norm_num [soupNew]
    · norm_num
  · refine (C9_append_behavior.2 (soupNew 4 7 ⟨1, 1, 1⟩) ⟨2, 2, -1⟩ ⟨2, -1, -1⟩ ⟨2, 0, 2⟩ 9
      none none (by norm_num) ?_ ?_ ?_).2
    · norm_num [vsub_eval, vcross_eval, vdot_eval]
    · norm_num [soupNew]
    · norm_num

/-! ### C10: auto-generated scene names can collide -/

/-- C10: the concrete sequence `append(o1)` (auto-named `obj0`),
`append(o2, "obj1")`, `remove_obj("obj0")`, `append(o3)` (auto-named
`"obj" ++ toString 1 = "obj1"` because only one object remains) ends with a
single entry: the un-named append silently replaced `o2` in place instead of
adding a new object. -/
theorem C10_autoname_collision :
    s10a.objName = ["obj0"] ∧ s10a.objList = [1] ∧
    s10b.objName = ["obj0", "obj1"] ∧ s10b.objList = [1, 2] ∧
    s10c.objName = ["obj1"] ∧ s10c.objList = [2] ∧
    s10d.objName = ["obj1"] ∧ s10d.objList = [3] := by
  decide

/-! ### C8: out-facing versus in-facing box normals -/

theorem vcross_anticomm (u v : Vec3) : Vec3.cross u v = -(Vec3.cross v u) := by
  cases u; cases v
  rw [vcross_eval, vcross_eval, vneg_eval]
  exact (vmk_eq _ _ _ _ _ _).mpr ⟨by ring, by ring, by ring⟩

theorem vdivQ_neg (v : Vec3) (t : ℚ) : Vec3.divQ (-v) t = -(Vec3.divQ v t) := by
  cases v
  rw [vneg_eval, vdivQ_eval, vdivQ_eval, vneg_eval]
  exact (vmk_eq _ _ _ _ _ _).mpr ⟨neg_div t _, neg_div t _, neg_div t _⟩

theorem pInit_swap (p q r : Vec3) (area : ℚ) :
    (parallelogramInit r q p area).n = -(parallelogramInit p q r area).n := by
  show Vec3.divQ (Vec3.cross (p - q) (r - q)) area =
    -(Vec3.divQ (Vec3.cross (r - q) (p - q)) area)
  rw [vcross_anticomm, vdivQ_neg]

theorem boxTriples_swap (a x b c : Vec3) :
    boxTriples a x b c false = (boxTriples a x b c true).map swapTriple := rfl

theorem appendSeq_neg (mats : Nat → ℤ) (cols : Nat → Vec3) (areas : Nat → ℚ) :
    ∀ (ts : List (Vec3 × Vec3 × Vec3)) (i : Nat) (s s' : FaceSoup),
      List.Forall₂ (fun f' f => f'.n = -f.n) s'.faces s.faces →
      List.Forall₂ (fun f' f => f'.n = -f.n)
        (soupAppendSeq mats cols areas s' (ts.map swapTriple) i).faces
        (soupAppendSeq mats cols areas s ts i).faces := by
  intro ts
  induction ts with
  | nil => intro i s s' h; simpa [soupAppendSeq] using h
  | cons t rest ih =>
      intro i s s' h
      obtain ⟨p, q, r⟩ := t
      rw [List.map_cons]
      rw [soupAppendSeq, soupAppendSeq]
      apply ih
      show List.Forall₂ _ (soupAppend s' r q p (areas i) (some (mats i)) (some (cols i))).faces
        (soupAppend s p q r (areas i) (some (mats i)) (some (cols i))).faces
      unfold soupAppend
      by_cases hc : (parallelogramInit p q r (areas i)).area > 1 / 1000000000000
      · rw [if_pos hc, if_pos (by rw [pInit_area]; rw [pInit_area] at hc; exact hc)]
        exact List.rel_append h
          (List.forall₂_cons.mpr ⟨pInit_swap p q r (areas i), List.Forall₂.nil⟩)
      · rw [if_neg hc, if_neg (by rw [pInit_area]; rw [pInit_area] at hc; exact hc)]
        exact h

/-- C8: the six faces stored by a `Box` built with `normal_out = false` are,
position by position, those of the `normal_out = true` box with exactly
negated stored normals (the in-facing constructor appends each corner triple
reversed, which negates the cross product and hence the normal, for the same
area divisor); and the normal a face hit reports is exactly the stored face
normal, so hits on corresponding faces report exactly negated normals. -/
theorem C8_box_normals_negated (a x b c : Vec3) (mats : Nat → ℤ) (cols : Nat → Vec3)
    (areas : Nat → ℚ) :
    List.Forall₂ (fun f' f => f'.n = -f.n)
      (boxSoup a x b c mats cols areas false).faces
      (boxSoup a x b c mats cols areas true).faces ∧
    (∀ (isPara : Bool) (ray : RayQ) (tmin : ℚ) (item : Face) (st : TravState),
      faceTest isPara ray tmin item st = st ∨
      (faceTest isPara ray tmin item st).normal = item.n) := by
  constructor
  · unfold boxSoup
    rw [boxTriples_swap]
    exact appendSeq_neg mats cols areas (boxTriples a x b c true) 0 _ _
      (by simp [soupNew])
  · intro isPara ray tmin item st
    rcases faceTest_cases isPara ray tmin item st with h | h
    · exact Or.inl h
    · right; rw [h.1]

/-! ### C4: scene aggregation -/

theorem hitrec_expand (h : HitRec) (hh : h.isHit = true) :
    h = ⟨true, h.time, h.point, h.normal, h.material, h.color, h.inside⟩ := by
  cases h; simp_all

theorem bool_eq_of_iff {a b : Bool} (h : a = true ↔ b = true) : a = b := by
  cases a <;> cases b <;> simp_all

theorem sceneGo_cons (g : ℚ → ℚ → HitRec) (rest : List (ℚ → ℚ → HitRec)) (tmin : ℚ)
    (acc : HitRec) :
    sceneGo (g :: rest) tmin acc =
      if (g tmin acc.time).isHit = true ∧ (g tmin acc.time).time > tmin then
        (if acc.time > (g tmin acc.time).time then
          sceneGo rest tmin ⟨true, (g tmin acc.time).time, (g tmin acc.time).point,
            (g tmin acc.time).normal, (g tmin acc.time).material, (g tmin acc.time).color,
            (g tmin acc.time).inside⟩
        else sceneGo rest tmin { acc with isHit := true })
      else sceneGo rest tmin acc := rfl

theorem sceneGo_spec (tmin : ℚ) :
    ∀ (rest : List (ℚ → ℚ → HitRec)) (acc : HitRec),
      (∀ f ∈ rest, HitWindowSound f ∧ HitWindowStable f ∧ HitWindowMono f) →
      tmin < acc.time →
      ((sceneGo rest tmin acc).time ≤ acc.time) ∧
      (∀ f ∈ rest, (f tmin acc.time).isHit = true → tmin < (f tmin acc.time).time →
        (sceneGo rest tmin acc).time ≤ (f tmin acc.time).time) ∧
      ((sceneGo rest tmin acc).isHit = true ↔ acc.isHit = true ∨
        ∃ f ∈ rest, (f tmin acc.time).isHit = true ∧ tmin < (f tmin acc.time).time) ∧
      ((sceneGo rest tmin acc).time < acc.time →
        tmin < (sceneGo rest tmin acc).time ∧
        ∃ f ∈ rest, f tmin acc.time =
          ⟨true, (sceneGo rest tmin acc).time, (sceneGo rest tmin acc).point,
            (sceneGo rest tmin acc).normal, (sceneGo rest tmin acc).material,
            (sceneGo rest tmin acc).color, (sceneGo rest tmin acc).inside⟩) ∧
      ((sceneGo rest tmin acc).time = acc.time →
        sceneGo rest tmin acc = acc ∨ sceneGo rest tmin acc = { acc with isHit := true }) := by
  intro rest
  induction rest with
  | nil =>
      intro acc _ _
      rw [sceneGo]
      refine ⟨le_refl _, ?_, by simp, ?_, fun _ => Or.inl rfl⟩
      · intro f hf; exact absurd hf (List.not_mem_nil f)
      · intro hlt; exact absurd hlt (lt_irrefl _)
  | cons g rest' ih =>
      intro acc hw ht
      have hwg := hw g (List.mem_cons_self g rest')
      have hwr : ∀ f ∈ rest', HitWindowSound f ∧ HitWindowStable f ∧ HitWindowMono f :=
        fun f hf => hw f (List.mem_cons_of_mem g hf)
      by_cases hcond : (g tmin acc.time).isHit = true ∧ (g tmin acc.time).time > tmin
      · have hlt : (g tmin acc.time).time < acc.time := hwg.1 tmin acc.time hcond.1
        rw [sceneGo_cons, if_pos hcond, if_pos hlt]
        set acc' : HitRec := ⟨true, (g tmin acc.time).time, (g tmin acc.time).point,
          (g tmin acc.time).normal, (g tmin acc.time).material, (g tmin acc.time).color,
          (g tmin acc.time).inside⟩ with hacc'
        have IH := ih acc' hwr hcond.2
        refine ⟨le_trans IH.1 (le_of_lt hlt), ?_, ?_, ?_, ?_⟩
        · intro f hf hfh hft
          rcases List.mem_cons.mp hf with rfl | hf'
          · exact IH.1
          · by_cases hT : (f tmin acc.time).time < acc'.time
            · have heq : f tmin acc'.time = f tmin acc.time :=
                (hwr f hf').2.1 tmin acc.time acc'.time hfh hT (le_of_lt hlt)
              have hres := IH.2.1 f hf' (by rw [heq]; exact hfh) (by rw [heq]; exact hft)
              rw [heq] at hres
              exact hres
            · push_neg at hT
              exact le_trans IH.1 hT
        · constructor
          · intro _
            exact Or.inr ⟨g, List.mem_cons_self g rest', hcond.1, hcond.2⟩
          · intro _
            exact (IH.2.2.1).mpr (Or.inl rfl)
        · intro _
          by_cases hlt3 : (sceneGo rest' tmin acc').time < acc'.time
          · obtain ⟨htm, f, hf', heqf⟩ := IH.2.2.2.1 hlt3
            refine ⟨htm, f, List.mem_cons_of_mem g hf', ?_⟩
            have hfh' : (f tmin acc'.time).isHit = true := by rw [heqf]
            have hmono := (hwr f hf').2.2 tmin acc.time acc'.time (le_of_lt hlt) hfh'
            have htlt : (f tmin acc.time).time < acc'.time := by
              calc (f tmin acc.time).time ≤ (f tmin acc'.time).time := hmono.2
                _ = (sceneGo rest' tmin acc').time := by rw [heqf]
                _ < acc'.time := hlt3
            have hstab : f tmin acc'.time = f tmin acc.time :=
              (hwr f hf').2.1 tmin acc.time acc'.time hmono.1 htlt (le_of_lt hlt)
            rw [← hstab]
            exact heqf
          · push_neg at hlt3
            have hte : (sceneGo rest' tmin acc').time = acc'.time := le_antisymm IH.1 hlt3
            have hresacc : sceneGo rest' tmin acc' = acc' := by
              rcases IH.2.2.2.2 hte with h | h
              · exact h
              · rw [h]
            refine ⟨?_, g, List.mem_cons_self g rest', ?_⟩
            · rw [hresacc]; exact hcond.2
            · rw [hresacc]
              exact hitrec_expand (g tmin acc.time) hcond.1
        · intro heq
          have hc := lt_of_le_of_lt IH.1 hlt
          rw [heq] at hc
          exact absurd hc (lt_irrefl _)
      · rw [sceneGo_cons, if_neg hcond]
        have IH := ih acc hwr ht
        refine ⟨IH.1, ?_, ?_, ?_, IH.2.2.2.2⟩
        · intro f hf hfh hft
          rcases List.mem_cons.mp hf with rfl | hf'
          · exact absurd ⟨hfh, hft⟩ hcond
          · exact IH.2.1 f hf' hfh hft
        · rw [IH.2.2.1]
          constructor
          · rintro (h | ⟨f, hf', hfh, hft⟩)
            · exact Or.inl h
            · exact Or.inr ⟨f, List.mem_cons_of_mem g hf', hfh, hft⟩
          · rintro (h | ⟨f, hf, hfh, hft⟩)
            · exact Or.inl h
            · rcases List.mem_cons.mp hf with rfl | hf'
              · exact absurd ⟨hfh, hft⟩ hcond
              · exact Or.inr ⟨f, hf', hfh, hft⟩
        · intro hlt2
          obtain ⟨htm, f, hf', heqf⟩ := IH.2.2.2.1 hlt2
          exact ⟨htm, f, List.mem_cons_of_mem g hf', heqf⟩

/-- C4, amended claim: `Scene.ray_intersect` returns the globally nearest
qualifying hit only for scenes whose objects are window-sound (hits lie
strictly below the queried `time_max`), window-stable and window-monotone;
then it reports a hit iff some object hits the full window past `time_min`,
and the returned record is the nearest such object's record, its time minimal
and strictly inside the window, independent of registration order.  `Plane`
satisfies all three hypotheses (proved below); `Sphere`/`SphereSoup` are not
window-sound, which lets the loop set `is_hit` with no qualifying hit because
only `hit_time > time_min` is checked before setting it (see the
counterexample); and the BVH-guided soups, though window-sound, are not
window-stable — narrowing `time_max` to above a reported hit can make the
solid-box test cull the box holding it (see `c1SoupObj_not_window_stable`) —
so scenes holding soups are outside the hypotheses too, and a prior
acceptance that narrows `time_max` can hide a later soup's nearer hit. -/
theorem C4_scene_nearest_qualifying (objs : List (ℚ → ℚ → HitRec)) (tmin tmax : ℚ)
    (hw : ∀ f ∈ objs, HitWindowSound f ∧ HitWindowStable f ∧ HitWindowMono f)
    (ht : tmin < tmax) :
    ((sceneRayIntersect objs tmin tmax).isHit = true ↔
      ∃ f ∈ objs, (f tmin tmax).isHit = true ∧ tmin < (f tmin tmax).time) ∧
    (∀ f ∈ objs, (f tmin tmax).isHit = true → tmin < (f tmin tmax).time →
      (sceneRayIntersect objs tmin tmax).time ≤ (f tmin tmax).time) ∧
    ((sceneRayIntersect objs tmin tmax).isHit = true →
      tmin < (sceneRayIntersect objs tmin tmax).time ∧
      (sceneRayIntersect objs tmin tmax).time < tmax ∧
      ∃ f ∈ objs, f tmin tmax =
        ⟨true, (sceneRayIntersect objs tmin tmax).time,
          (sceneRayIntersect objs tmin tmax).point,
          (sceneRayIntersect objs tmin tmax).normal,
          (sceneRayIntersect objs tmin tmax).material,
          (sceneRayIntersect objs tmin tmax).color,
          (sceneRayIntersect objs tmin tmax).inside⟩) ∧
    (∀ objs', objs'.Perm objs →
      (sceneRayIntersect objs' tmin tmax).isHit = (sceneRayIntersect objs tmin tmax).isHit ∧
      (sceneRayIntersect objs' tmin tmax).time = (sceneRayIntersect objs tmin tmax).time) := by
  have hiff : ∀ (l : List (ℚ → ℚ → HitRec)),
      (∀ f ∈ l, HitWindowSound f ∧ HitWindowStable f ∧ HitWindowMono f) →
      ((sceneRayIntersect l tmin tmax).isHit = true ↔
        ∃ f ∈ l, (f tmin tmax).isHit = true ∧ tmin < (f tmin tmax).time) := by
    intro l hl
    have S := sceneGo_spec tmin l ⟨false, tmax, Vec3.zero, ⟨0, 1, 0⟩, 0, Vec3.zero, false⟩ hl ht
    rw [show sceneRayIntersect l tmin tmax =
      sceneGo l tmin ⟨false, tmax, Vec3.zero, ⟨0, 1, 0⟩, 0, Vec3.zero, false⟩ from rfl]
    rw [S.2.2.1]
    simp
  have hmin : ∀ (l : List (ℚ → ℚ → HitRec)),
      (∀ f ∈ l, HitWindowSound f ∧ HitWindowStable f ∧ HitWindowMono f) →
      ∀ f ∈ l, (f tmin tmax).isHit = true → tmin < (f tmin tmax).time →
        (sceneRayIntersect l tmin tmax).time ≤ (f tmin tmax).time := by
    intro l hl
    exact (sceneGo_spec tmin l ⟨false, tmax, Vec3.zero, ⟨0, 1, 0⟩, 0, Vec3.zero, false⟩ hl ht).2.1
  have hrec : ∀ (l : List (ℚ → ℚ → HitRec)),
      (∀ f ∈ l, HitWindowSound f ∧ HitWindowStable f ∧ HitWindowMono f) →
      (sceneRayIntersect l tmin tmax).isHit = true →
      tmin < (sceneRayIntersect l tmin tmax).time ∧
      (sceneRayIntersect l tmin tmax).time < tmax ∧
      ∃ f ∈ l, f tmin tmax =
        ⟨true, (sceneRayIntersect l tmin tmax).time, (sceneRayIntersect l tmin tmax).point,
          (sceneRayIntersect l tmin tmax).normal, (sceneRayIntersect l tmin tmax).material,
          (sceneRayIntersect l tmin tmax).color, (sceneRayIntersect l tmin tmax).inside⟩ := by
    intro l hl hhit
    have S := sceneGo_spec tmin l ⟨false, tmax, Vec3.zero, ⟨0, 1, 0⟩, 0, Vec3.zero, false⟩ hl ht
    obtain ⟨f, hf, hfh, hft⟩ := (hiff l hl).mp hhit
    have hfs : (f tmin tmax).time < tmax := (hl f hf).1 tmin tmax hfh
    have hlt : (sceneRayIntersect l tmin tmax).time < tmax :=
      lt_of_le_of_lt (hmin l hl f hf hfh hft) hfs
    obtain ⟨htm, hex⟩ := S.2.2.2.1 hlt
    exact ⟨htm, hlt, hex⟩
  refine ⟨hiff objs hw, hmin objs hw, hrec objs hw, ?_⟩
  · intro objs' hperm
    have hw' : ∀ f ∈ objs', HitWindowSound f ∧ HitWindowStable f ∧ HitWindowMono f :=
      fun f hf => hw f (hperm.mem_iff.mp hf)
    have hhit_eq : (sceneRayIntersect objs' tmin tmax).isHit =
        (sceneRayIntersect objs tmin tmax).isHit := by
      apply bool_eq_of_iff
      rw [hiff objs' hw', hiff objs hw]
      constructor
      · rintro ⟨f, hf, hp⟩; exact ⟨f, hperm.mem_iff.mp hf, hp⟩
      · rintro ⟨f, hf, hp⟩; exact ⟨f, hperm.mem_iff.mpr hf, hp⟩
    refine ⟨hhit_eq, ?_⟩
    by_cases hb : (sceneRayIntersect objs tmin tmax).isHit = true
    · have hb' : (sceneRayIntersect objs' tmin tmax).isHit = true := by rw [hhit_eq]; exact hb
      obtain ⟨htm, _, f, hf, heqf⟩ := hrec objs hw hb
      obtain ⟨htm', _, f', hf', heqf'⟩ := hrec objs' hw' hb'
      have h1 : (sceneRayIntersect objs' tmin tmax).time ≤
          (sceneRayIntersect objs tmin tmax).time := by
        have := hmin objs' hw' f (hperm.mem_iff.mpr hf) (by rw [heqf]) (by rw [heqf]; exact htm)
        rw [heqf] at this
        exact this
      have h2 : (sceneRayIntersect objs tmin tmax).time ≤
          (sceneRayIntersect objs' tmin tmax).time := by
        have := hmin objs hw f' (hperm.mem_iff.mp hf') (by rw [heqf']) (by rw [heqf']; exact htm')
        rw [heqf'] at this
        exact this
      exact le_antisymm h1 h2
    · have S := sceneGo_spec tmin objs ⟨false, tmax, Vec3.zero, ⟨0, 1, 0⟩, 0, Vec3.zero, false⟩ hw ht
      have S' := sceneGo_spec tmin objs' ⟨false, tmax, Vec3.zero, ⟨0, 1, 0⟩, 0, Vec3.zero, false⟩ hw' ht
      have hb' : ¬(sceneRayIntersect objs' tmin tmax).isHit = true := by
        rw [hhit_eq]; exact hb
      have hnl : ∀ (l : List (ℚ → ℚ → HitRec))
          (hl : ∀ f ∈ l, HitWindowSound f ∧ HitWindowStable f ∧ HitWindowMono f),
          ¬(sceneRayIntersect l tmin tmax).isHit = true →
          (sceneRayIntersect l tmin tmax).time = tmax := by
        intro l hl hnb
        have Sl := sceneGo_spec tmin l ⟨false, tmax, Vec3.zero, ⟨0, 1, 0⟩, 0, Vec3.zero, false⟩ hl ht
        by_contra hne
        have hlt : (sceneRayIntersect l tmin tmax).time < tmax := lt_of_le_of_ne Sl.1 hne
        obtain ⟨htm, f, hf, heqf⟩ := Sl.2.2.2.1 hlt
        exact hnb ((hiff l hl).mpr ⟨f, hf, by rw [heqf], by rw [heqf]; exact htm⟩)
      rw [hnl objs' hw' hb', hnl objs hw hb]

/-- C4, counterexample: a `Scene` holding one sphere queried with window
`(1/2, 50)`: the sphere reports a (window-violating) hit at `t = 99`, the
scene's guard `hit_time > time_min` passes, so `is_hit` is set — but
`99 < time_max` fails, so nothing is accepted and the scene returns `is_hit =
true` with the untouched defaults (`hit_time = time_max = 50`, zero point).
No object hit qualifies, so the result is not "the globally nearest
qualifying hit". -/
theorem C4_counterexample :
    sceneRayIntersect [badSphereObj] (1/2) 50 =
      ⟨true, 50, ⟨0, 0, 0⟩, ⟨0, 1, 0⟩, 0, ⟨0, 0, 0⟩, false⟩ ∧
    (badSphereObj (1/2) 50).isHit = true ∧ (badSphereObj (1/2) 50).time = 99 ∧
    ¬((badSphereObj (1/2) 50).time < 50) := by
  norm_num [sceneRayIntersect, sceneGo, badSphereObj, sphereRayIntersect, sphereHit, rayAt,
    vdot_eval, vsub_eval, vadd_eval, vsmul_eval, vdivQ_eval, vzero_eval, vmk_eq,
    HitRec.mk.injEq]

theorem planeRI_cases (center normal : Vec3) (m : ℤ) (col : Vec3) (ray : RayQ)
    (tl tu : ℚ) :
    (planeRayIntersect center normal m col ray tl tu =
      ⟨true, planeT center normal ray, rayAt ray (planeT center normal ray), normal, m, col,
        false⟩ ∧
      Vec3.dot ray.direction normal < 0 ∧ tl ≤ planeT center normal ray ∧
      planeT center normal ray < tu) ∨
    ((planeRayIntersect center normal m col ray tl tu).isHit = false ∧
      ¬(Vec3.dot ray.direction normal < 0 ∧ tl ≤ planeT center normal ray ∧
        planeT center normal ray < tu)) := by
  unfold planeRayIntersect planeT
  simp only []
  split_ifs with h1 h2 h3
  · refine Or.inr ⟨rfl, ?_⟩
    rintro ⟨_, hge, _⟩
    exact absurd h2 (not_lt.mpr hge)
  · exact Or.inl ⟨rfl, h1, not_lt.mp h2, h3⟩
  · refine Or.inr ⟨rfl, ?_⟩
    rintro ⟨_, _, hlt⟩
    exact absurd hlt h3
  · refine Or.inr ⟨rfl, ?_⟩
    rintro ⟨hlt, _, _⟩
    exact absurd hlt h1

theorem plane_window_sound (center normal : Vec3) (m : ℤ) (col : Vec3) (ray : RayQ) :
    HitWindowSound (fun tl tu => planeRayIntersect center normal m col ray tl tu) := by
  intro tl tu h
  simp only [] at h ⊢
  rcases planeRI_cases center normal m col ray tl tu with ⟨heq, _, _, hlt⟩ | ⟨hf, _⟩
  · rw [heq]; exact hlt
  · rw [hf] at h; exact absurd h (by simp)

theorem plane_window_stable (center normal : Vec3) (m : ℤ) (col : Vec3) (ray : RayQ) :
    HitWindowStable (fun tl tu => planeRayIntersect center normal m col ray tl tu) := by
  intro tl tu tu' h hlt htu
  simp only [] at h hlt ⊢
  rcases planeRI_cases center normal m col ray tl tu with ⟨heq, hd, hge, _⟩ | ⟨hf, _⟩
  · rw [heq] at hlt ⊢
    rcases planeRI_cases center normal m col ray tl tu' with ⟨heq', _, _, _⟩ | ⟨_, hnc⟩
    · rw [heq']
    · exact absurd ⟨hd, hge, hlt⟩ hnc
  · rw [hf] at h; exact absurd h (by simp)

theorem plane_window_mono (center normal : Vec3) (m : ℤ) (col : Vec3) (ray : RayQ) :
    HitWindowMono (fun tl tu => planeRayIntersect center normal m col ray tl tu) := by
  intro tl tu tu' htu h
  simp only [] at h ⊢
  rcases planeRI_cases center normal m col ray tl tu' with ⟨heq', hd, hge, hlt⟩ | ⟨hf, _⟩
  · have hlt2 : planeT center normal ray < tu := lt_of_lt_of_le hlt htu
    rcases planeRI_cases center normal m col ray tl tu with ⟨heq, _, _, _⟩ | ⟨_, hnc⟩
    · rw [heq, heq']
      exact ⟨rfl, le_refl _⟩
    · exact absurd ⟨hd, hge, hlt2⟩ hnc
  · rw [hf] at h; exact absurd h (by simp)

/-- Same traversal as `c1_trav_eval` but with the wide window `(1, 20)`: the
root box's exit crossing `t = 10` now lies inside the window, so the box is
kept and the first face is hit at `t = 2`. -/
theorem c1_trav20_eval :
    soupRayIntersect false ⟨1, 1, 1⟩ [c1Face0, c1Face1]
      [⟨⟨1/2, -1, -1⟩, ⟨10, 6, 2⟩, -1, -2⟩] c1Ray 1 20 4 =
      some ⟨true, 2, ⟨2, 0, 0⟩, ⟨-1, 0, 0⟩, 0, ⟨1, 1, 1⟩, false⟩ := by
  norm_num [soupRayIntersect, travLoop, travSlot, travInit, faceTest, c1Ray,
    rayIntersectSolidBox, solidBoxAxis, solidBoxFace, rayAt, List.foldl,
    parallelogramAlphaBeta, checkAb, checkAbTriangle, c1Face0, c1Face1,
    vnth0, vnth1, vnth2, vadd_eval, vsub_eval, vsmul_eval, vzero_eval, vdot_eval,
    zeroFlatNode, HitRec.mk.injEq, vmk_eq]

/-- The BVH-guided soup traversal is not window-stable: on the built `c1Soup`
the window `(1, 20)` yields a hit at `t = 2`, yet narrowing `time_max` to `3`
— still strictly above the reported hit — culls the root box and loses the
hit.  So scenes holding soups are outside the hypotheses of the amended C4,
and a prior acceptance that narrows `time_max` can make a later soup miss a
nearer qualifying hit. -/
theorem c1SoupObj_not_window_stable : ¬ HitWindowStable c1SoupObj := by
  have hb : c1FacesB = [c1Face0, c1Face1] := by
    rw [c1FacesB, c1_built_eval.1]; rfl
  have ho : c1Octree = [⟨⟨1/2, -1, -1⟩, ⟨10, 6, 2⟩, -1, -2⟩] := by
    rw [c1Octree, c1_built_eval.2]; rfl
  have h20 : c1SoupObj 1 20 = ⟨true, 2, ⟨2, 0, 0⟩, ⟨-1, 0, 0⟩, 0, ⟨1, 1, 1⟩, false⟩ := by
    unfold c1SoupObj
    rw [hb, ho, c1_trav20_eval]
    rfl
  have h3 : c1SoupObj 1 3 = ⟨false, 3, ⟨0, 0, 0⟩, ⟨0, 1, 0⟩, 0, ⟨1, 1, 1⟩, false⟩ := by
    unfold c1SoupObj
    rw [hb, ho, c1_trav_eval]
    rfl
  intro hst
  have hcontra := hst 1 20 3 (by rw [h20]) (by rw [h20]; norm_num) (by norm_num)
  rw [h20, h3] at hcontra
  exact absurd (congrArg HitRec.isHit hcontra) (by simp)

theorem C4_scene_nearest_qualifying_witness :
    ((sceneRayIntersect [wPlaneObj] 4 10).isHit = true ↔
      ∃ f ∈ [wPlaneObj], (f 4 10).isHit = true ∧ (4 : ℚ) < (f 4 10).time) ∧
    (∀ f ∈ [wPlaneObj], (f 4 10).isHit = true → (4 : ℚ) < (f 4 10).time →
      (sceneRayIntersect [wPlaneObj] 4 10).time ≤ (f 4 10).time) ∧
    ((sceneRayIntersect [wPlaneObj] 4 10).isHit = true →
      (4 : ℚ) < (sceneRayIntersect [wPlaneObj] 4 10).time ∧
      (sceneRayIntersect [wPlaneObj] 4 10).time < 10 ∧
      ∃ f ∈ [wPlaneObj], f 4 10 =
        ⟨true, (sceneRayIntersect [wPlaneObj] 4 10).time,
          (sceneRayIntersect [wPlaneObj] 4 10).point,
          (sceneRayIntersect [wPlaneObj] 4 10).normal,
          (sceneRayIntersect [wPlaneObj] 4 10).material,
          (sceneRayIntersect [wPlaneObj] 4 10).color,
          (sceneRayIntersect [wPlaneObj] 4 10).inside⟩) ∧
    (∀ objs', objs'.Perm [wPlaneObj] →
      (sceneRayIntersect objs' 4 10).isHit = (sceneRayIntersect [wPlaneObj] 4 10).isHit ∧
      (sceneRayIntersect objs' 4 10).time = (sceneRayIntersect [wPlaneObj] 4 10).time) :=
  C4_scene_nearest_qualifying [wPlaneObj] 4 10
    (by
      intro f hf
      rw [List.mem_singleton] at hf
      subst hf
      exact ⟨plane_window_sound ⟨0, 0, 0⟩ ⟨0, 0, 1⟩ 0 ⟨1, 1, 1⟩ ⟨⟨0, 0, 5⟩, ⟨0, 0, -1⟩⟩,
        plane_window_stable ⟨0, 0, 0⟩ ⟨0, 0, 1⟩ 0 ⟨1, 1, 1⟩ ⟨⟨0, 0, 5⟩, ⟨0, 0, -1⟩⟩,
        plane_window_mono ⟨0, 0, 0⟩ ⟨0, 0, 1⟩ 0 ⟨1, 1, 1⟩ ⟨⟨0, 0, 5⟩, ⟨0, 0, -1⟩⟩⟩)
    (by norm_num)

/-! ### C6 and C7: tree build, partition bounds, termination, leaf encodings -/

theorem advI_bounds (st : AState) (x : ℚ) (axis : Nat) :
    ∀ (n i j : Nat), j - i ≤ n → i ≤ j →
      i ≤ advI st x axis i j ∧ advI st x axis i j ≤ j := by
  intro n
  induction n with
  | zero =>
      intro i j hn hij
      rw [advI, if_neg]
      · exact ⟨le_refl i, hij⟩
      · rintro ⟨_, hlt⟩; omega
  | succ n ih =>
      intro i j hn hij
      rw [advI]
      split_ifs with h
      · have hb := ih (i + 1) j (by omega) h.2
        exact ⟨by omega, hb.2⟩
      · exact ⟨le_refl i, hij⟩

theorem advI_le (st : AState) (x : ℚ) (axis : Nat) (i j : Nat) (hij : i ≤ j) :
    i ≤ advI st x axis i j ∧ advI st x axis i j ≤ j :=
  advI_bounds st x axis (j - i) i j (le_refl _) hij

theorem advI_exit (st : AState) (x : ℚ) (axis : Nat) :
    ∀ (n i j : Nat), j - i ≤ n →
      ¬((centerAt st (advI st x axis i j)).nth axis ≤ x ∧ advI st x axis i j < j) := by
  intro n
  induction n with
  | zero =>
      intro i j hn
      rw [advI, if_neg]
      · rintro ⟨_, hlt⟩; omega
      · rintro ⟨_, hlt⟩; omega
  | succ n ih =>
      intro i j hn
      rw [advI]
      split_ifs with h
      · exact ih (i + 1) j (by omega)
      · exact h

theorem advI_stuck (st : AState) (x : ℚ) (axis : Nat) (i j : Nat)
    (h : (centerAt st i).nth axis ≤ x) (hij : i < j) :
    advI st x axis i j = advI st x axis (i + 1) j := by
  rw [advI, if_pos ⟨h, hij⟩]

theorem advJ_bounds (st : AState) (x : ℚ) (axis : Nat) :
    ∀ (n i j : Nat), j ≤ n → i ≤ j →
      i ≤ advJ st x axis i j ∧ advJ st x axis i j ≤ j := by
  intro n
  induction n with
  | zero =>
      intro i j hn hij
      rw [advJ, if_neg]
      · exact ⟨hij, le_refl j⟩
      · rintro ⟨_, hlt⟩; omega
  | succ n ih =>
      intro i j hn hij
      rw [advJ]
      split_ifs with h
      · have hb := ih i (j - 1) (by omega) (by omega)
        exact ⟨hb.1, by omega⟩
      · exact ⟨hij, le_refl j⟩

theorem advJ_le (st : AState) (x : ℚ) (axis : Nat) (i j : Nat) (hij : i ≤ j) :
    i ≤ advJ st x axis i j ∧ advJ st x axis i j ≤ j :=
  advJ_bounds st x axis j i j (le_refl _) hij

theorem advJ_exit (st : AState) (x : ℚ) (axis : Nat) :
    ∀ (n i j : Nat), j ≤ n →
      ¬((centerAt st (advJ st x axis i j)).nth axis ≥ x ∧ i < advJ st x axis i j) := by
  intro n
  induction n with
  | zero =>
      intro i j hn
      rw [advJ, if_neg]
      · rintro ⟨_, hlt⟩; omega
      · rintro ⟨_, hlt⟩; omega
  | succ n ih =>
      intro i j hn
      rw [advJ]
      split_ifs with h
      · exact ih i (j - 1) (by omega)
      · exact h

theorem partLoop_bounds (x : ℚ) (axis : Nat) :
    ∀ (fuel : Nat) (st : AState) (i j : Nat) (res : Nat × AState), i ≤ j →
      partLoop x axis fuel st i j = some res → i ≤ res.1 ∧ res.1 ≤ j := by
  intro fuel
  induction fuel with
  | zero => intro st i j res _ hp; simp [partLoop] at hp
  | succ f ih =>
      intro st i j res hij hp
      rw [partLoop] at hp
      by_cases hij2 : i < j
      · rw [if_pos hij2] at hp
        simp only [] at hp
        have hb1 := advI_le st x axis i j (le_of_lt hij2)
        have hb2 := advJ_le st x axis (advI st x axis i j) j hb1.2
        by_cases hc : advI st x axis i j < advJ st x axis (advI st x axis i j) j
        · rw [if_pos hc] at hp
          have hb := ih _ _ _ res (le_of_lt hc) hp
          exact ⟨by omega, by omega⟩
        · rw [if_neg hc] at hp
          have : res = (advJ st x axis (advI st x axis i j) j, st) := by
            exact (Option.some_inj.mp hp).symm
          rw [this]
          exact ⟨by omega, by omega⟩
      · rw [if_neg hij2] at hp
        have : res = (j, st) := (Option.some_inj.mp hp).symm
        rw [this]
        exact ⟨hij, le_refl j⟩

theorem swapPair_getD_left (st : AState) (i j : Nat) (hij : i < j) :
    (swapPair st i j).getD i defaultPair = st.getD j defaultPair := by
  unfold swapPair
  simp only []
  rw [List.getD_eq_getElem?_getD, List.getD_eq_getElem?_getD,
    List.getElem?_set_ne (by omega : j ≠ i)]
  by_cases hlen : i < st.length
  · rw [List.getElem?_set_eq_of_lt _ hlen, Option.getD_some]
  · rw [List.set_eq_of_length_le (by omega : st.length ≤ i)]
    rw [List.getElem?_eq_none (by omega : st.length ≤ i),
      List.getElem?_eq_none (by omega : st.length ≤ j)]

theorem partLoop_some (x : ℚ) (axis : Nat) :
    ∀ (fuel : Nat) (st : AState) (i j : Nat), i ≤ j → 2 * (j - i) + 1 ≤ fuel →
      (partLoop x axis fuel st i j).isSome = true := by
  intro fuel
  induction fuel using Nat.strong_induction_on with
  | _ fuel ih =>
      intro st i j hij hfuel
      cases fuel with
      | zero => omega
      | succ f =>
          rw [partLoop]
          by_cases hij2 : i < j
          · rw [if_pos hij2]
            simp only []
            have hb1 := advI_le st x axis i j (le_of_lt hij2)
            have hb2 := advJ_le st x axis (advI st x axis i j) j hb1.2
            by_cases hc : advI st x axis i j < advJ st x axis (advI st x axis i j) j
            · rw [if_pos hc]
              by_cases hmv : i < advI st x axis i j ∨ advJ st x axis (advI st x axis i j) j < j
              · refine ih f (by omega) _ _ _ (le_of_lt hc) ?_
                rcases hmv with hm | hm
                · omega
                · omega
              · push_neg at hmv
                have hi1 : advI st x axis i j = i := le_antisymm hmv.1 hb1.1
                rw [hi1] at hb2 hmv hc
                have hj1 : advJ st x axis i j = j := le_antisymm hb2.2 hmv.2
                have hadvi := advI_exit st x axis (j - i) i j (le_refl _)
                rw [hi1] at hadvi
                have hadvj := advJ_exit st x axis j i j (le_refl _)
                rw [hj1] at hadvj
                have hcj : (centerAt st j).nth axis < x := by
                  by_contra hge
                  push_neg at hge
                  exact hadvj ⟨hge, hij2⟩
                rw [hi1, hj1]
                have hcs : (centerAt (swapPair st i j) i).nth axis ≤ x := by
                  unfold centerAt at hcj ⊢
                  rw [swapPair_getD_left st i j hij2]
                  exact le_of_lt hcj
                cases f with
                | zero => omega
                | succ f2 =>
                    rw [partLoop]
                    rw [if_pos hij2]
                    simp only []
                    have hstep : advI (swapPair st i j) x axis i j =
                        advI (swapPair st i j) x axis (i + 1) j :=
                      advI_stuck (swapPair st i j) x axis i j hcs hij2
                    have hb1' : i + 1 ≤ advI (swapPair st i j) x axis i j ∧
                        advI (swapPair st i j) x axis i j ≤ j := by
                      rw [hstep]
                      exact advI_le (swapPair st i j) x axis (i + 1) j (by omega)
                    have hb2' := advJ_le (swapPair st i j) x axis
                      (advI (swapPair st i j) x axis i j) j hb1'.2
                    by_cases hc' : advI (swapPair st i j) x axis i j <
                        advJ (swapPair st i j) x axis (advI (swapPair st i j) x axis i j) j
                    · rw [if_pos hc']
                      refine ih f2 (by omega) _ _ _ (le_of_lt hc') ?_
                      omega
                    · rw [if_neg hc']; simp
            · rw [if_neg hc]; simp
          · rw [if_neg hij2]; simp

theorem splitAabb_some :
    ∀ (fuel : Nat) (st : AState) (L R : Nat), L < R → R - L ≤ fuel →
      (splitAabb fuel st L R).isSome = true := by
  intro fuel
  induction fuel using Nat.strong_induction_on with
  | _ fuel ih =>
      intro st L R hLR hfuel
      cases fuel with
      | zero => omega
      | succ f =>
          rw [splitAabb]
          rw [if_neg (by omega : ¬L > R)]
          simp only []
          by_cases h1 : R - L = 1
          · rw [if_pos h1]; simp
          · rw [if_neg h1]
            by_cases h2 : R - L = 2
            · rw [if_pos h2]; simp
            · rw [if_neg h2]
              have hsort : (sortTriangles st
                  ((computeBox st L R).2.2.2.nth (pickAxis (computeBox st L R).2.2.1)) L R
                  (pickAxis (computeBox st L R).2.2.1)).isSome = true := by
                unfold sortTriangles
                exact partLoop_some _ _ _ st L (R - 1) (by omega) (by omega)
              obtain ⟨res, hres⟩ := Option.isSome_iff_exists.mp hsort
              obtain ⟨lx0, st1⟩ := res
              have hb : L ≤ lx0 ∧ lx0 ≤ R - 1 := by
                unfold sortTriangles at hres
                exact partLoop_bounds _ _ _ st L (R - 1) (lx0, st1) (by omega) hres
              rw [hres]
              simp only []
              set lx := (if (if lx0 = L then L + 1 else lx0) = R then R - 1
                else (if lx0 = L then L + 1 else lx0)) with hlx
              have hlxb : L < lx ∧ lx < R := by
                rw [hlx]
                split_ifs <;> omega
              obtain ⟨res1, hres1⟩ := Option.isSome_iff_exists.mp
                (ih f (by omega) st1 L lx hlxb.1 (by omega))
              obtain ⟨ln, st2⟩ := res1
              rw [hres1]
              simp only []
              obtain ⟨res2, hres2⟩ := Option.isSome_iff_exists.mp
                (ih f (by omega) st2 lx R hlxb.2 (by omega))
              obtain ⟨rn, st3⟩ := res2
              rw [hres2]
              simp

theorem splitAabb_spec :
    ∀ (fuel : Nat) (st : AState) (L R : Nat) (onode : Option TNode) (st' : AState),
      L < R → splitAabb fuel st L R = some (onode, st') →
      ∃ t, onode = some t ∧ ShapeWF t ∧ TNode.index t = -1 ∧
        leafIndices t = (List.range' L (R - L)).map Int.ofNat := by
  intro fuel
  induction fuel using Nat.strong_induction_on with
  | _ fuel ih =>
      intro st L R onode st' hLR heq
      cases fuel with
      | zero => simp [splitAabb] at heq
      | succ f =>
          rw [splitAabb, if_neg (by omega : ¬L > R)] at heq
          simp only [] at heq
          by_cases h1 : R - L = 1
          · rw [if_pos h1] at heq
            refine ⟨.mk (-1) (computeBox st L R).1 (computeBox st L R).2.1
              (some (leafNode (L : ℤ))) none, ?_, ?_, rfl, ?_⟩
            · exact (congrArg Prod.fst (Option.some_inj.mp heq)).symm
            · exact ShapeWF.single _ _ _ (Int.natCast_nonneg L)
            · have e1 : (leafNode (L : ℤ)).isLeaf = true := by
                simp [leafNode, TNode.isLeaf, TNode.index, Int.natCast_nonneg]
              rw [h1, leafIndices, e1]
              simp [leafNode, TNode.index, List.range', Int.ofNat_eq_natCast]
          · rw [if_neg h1] at heq
            by_cases h2 : R - L = 2
            · rw [if_pos h2] at heq
              refine ⟨.mk (-1) (computeBox st L R).1 (computeBox st L R).2.1
                (some (leafNode (L : ℤ))) (some (leafNode ((L : ℤ) + 1))), ?_, ?_, rfl, ?_⟩
              · exact (congrArg Prod.fst (Option.some_inj.mp heq)).symm
              · exact ShapeWF.double _ _ _ _ (Int.natCast_nonneg L) (by omega)
              · have e1 : (leafNode (L : ℤ)).isLeaf = true := by
                  simp [leafNode, TNode.isLeaf, TNode.index, Int.natCast_nonneg]
                have e2 : (leafNode ((L : ℤ) + 1)).isLeaf = true := by
                  have h0 : (0 : ℤ) ≤ (L : ℤ) + 1 := by positivity
                  simp [leafNode, TNode.isLeaf, TNode.index, h0]
                rw [h2, leafIndices, e1, e2]
                simp [leafNode, TNode.index, List.range', Int.ofNat_eq_natCast]
            · rw [if_neg h2] at heq
              rcases hres : sortTriangles st
                  ((computeBox st L R).2.2.2.nth (pickAxis (computeBox st L R).2.2.1)) L R
                  (pickAxis (computeBox st L R).2.2.1) with _ | ⟨lx0, st1⟩
              · rw [hres] at heq; simp at heq
              · rw [hres] at heq
                simp only [] at heq
                have hb : L ≤ lx0 ∧ lx0 ≤ R - 1 := by
                  unfold sortTriangles at hres
                  exact partLoop_bounds _ _ _ st L (R - 1) (lx0, st1) (by omega) hres
                set lx := (if (if lx0 = L then L + 1 else lx0) = R then R - 1
                  else (if lx0 = L then L + 1 else lx0)) with hlx
                have hlxb : L < lx ∧ lx < R := by
                  rw [hlx]
                  split_ifs <;> omega
                rcases hres1 : splitAabb f st1 L lx with _ | ⟨ln, st2⟩
                · rw [hres1] at heq; simp at heq
                · rw [hres1] at heq
                  simp only [] at heq
                  rcases hres2 : splitAabb f st2 lx R with _ | ⟨rn, st3⟩
                  · rw [hres2] at heq; simp at heq
                  · rw [hres2] at heq
                    simp only [] at heq
                    obtain ⟨tl, htl, hwl, hil, hll⟩ :=
                      ih f (by omega) st1 L lx ln st2 hlxb.1 hres1
                    obtain ⟨tr, htr, hwr, hir, hlr⟩ :=
                      ih f (by omega) st2 lx R rn st3 hlxb.2 hres2
                    subst htl
                    subst htr
                    refine ⟨.mk (-1) (computeBox st L R).1 (computeBox st L R).2.1
                      (some tl) (some tr), ?_, ?_, rfl, ?_⟩
                    · exact (congrArg Prod.fst (Option.some_inj.mp heq)).symm
                    · exact ShapeWF.internal _ _ tl tr hwl hwr hil hir
                    · have hlf : tl.isLeaf = false := by simp [TNode.isLeaf, hil]
                      have hrf : tr.isLeaf = false := by simp [TNode.isLeaf, hir]
                      rw [leafIndices, hlf, hrf]
                      simp only [Bool.false_eq_true, if_false]
                      rw [hll, hlr, ← List.map_append]
                      have hra := List.range'_append L (lx - L) (R - lx) 1
                      rw [show L + 1 * (lx - L) = lx by omega] at hra
                      rw [show (R - lx) + (lx - L) = R - L by omega] at hra
                      rw [hra]

theorem flatten_wf : ∀ (t : TNode), ShapeWF t → ∀ (idx : Nat),
    ∃ fl, flattenNode t idx = some fl ∧
      (flatSlots fl).filter (fun z => decide (z < 0)) =
        (leafIndices t).map (fun i => -(i + 1)) := by
  intro t hwf
  induction hwf with
  | single cmin cmax i hi =>
      intro idx
      have e1 : (leafNode i).isLeaf = true := by
        simp [leafNode, TNode.isLeaf, TNode.index, hi]
      have henc : (leafNode i).indexEncode = -(i + 1) := by
        simp [leafNode, TNode.indexEncode, TNode.index, not_lt.mpr hi]
      refine ⟨[⟨cmin, cmax, -(i + 1), 0⟩], ?_, ?_⟩
      · rw [flattenNode, if_pos e1, henc]
      · have hneg : (-(i + 1) : ℤ) < 0 := by omega
        rw [leafIndices, e1]
        simp [flatSlots, List.filter_cons, hneg, leafNode, TNode.index]
        omega
  | double cmin cmax i j hi hj =>
      intro idx
      have e1 : (leafNode i).isLeaf = true := by
        simp [leafNode, TNode.isLeaf, TNode.index, hi]
      have e2 : (leafNode j).isLeaf = true := by
        simp [leafNode, TNode.isLeaf, TNode.index, hj]
      have henc : (leafNode i).indexEncode = -(i + 1) := by
        simp [leafNode, TNode.indexEncode, TNode.index, not_lt.mpr hi]
      have henc2 : (leafNode j).indexEncode = -(j + 1) := by
        simp [leafNode, TNode.indexEncode, TNode.index, not_lt.mpr hj]
      refine ⟨[⟨cmin, cmax, -(i + 1), -(j + 1)⟩], ?_, ?_⟩
      · rw [flattenNode, if_pos e1, henc, henc2]
      · have hneg : (-(i + 1) : ℤ) < 0 := by omega
        have hneg2 : (-(j + 1) : ℤ) < 0 := by omega
        have hI : (-1 : ℤ) < i := by omega
        have hJ : (-1 : ℤ) < j := by omega
        rw [leafIndices, e1, e2]
        simp [flatSlots, List.filter_cons, hneg, hneg2, leafNode, TNode.index, hI, hJ]
  | internal cmin cmax l r hl hr hli hri ihl ihr =>
      intro idx
      obtain ⟨l0, hfl, hsl⟩ := ihl (idx + 1)
      obtain ⟨l1, hfr, hsr⟩ := ihr (idx + (1 + l0.length))
      have hlf : l.isLeaf = false := by simp [TNode.isLeaf, hli]
      have hrf : r.isLeaf = false := by simp [TNode.isLeaf, hri]
      refine ⟨⟨cmin, cmax, (idx : ℤ) + 1, ((idx + (1 + l0.length) : Nat) : ℤ)⟩ :: l0 ++ l1,
        ?_, ?_⟩
      · rw [flattenNode, if_neg (by simp [hlf]), hfl]
        simp only []
        rw [hfr]
      · have h0 : ¬((idx : ℤ) + 1 < 0) := by omega
        have h1' : ¬(((idx + (1 + l0.length) : Nat) : ℤ) < 0) := by omega
        rw [leafIndices, hlf, hrf]
        simp only [Bool.false_eq_true, if_false]
        rw [show flatSlots
            (⟨cmin, cmax, (idx : ℤ) + 1, ((idx + (1 + l0.length) : Nat) : ℤ)⟩ :: l0 ++ l1) =
            ((idx : ℤ) + 1) :: ((idx + (1 + l0.length) : Nat) : ℤ) :: (flatSlots l0 ++ flatSlots l1)
          from by simp [flatSlots]]
        rw [List.filter_cons, List.filter_cons]
        simp only [h0, decide_eq_true_eq, if_neg, h1']
        rw [if_neg (by simp [h0]), if_neg (by simp [h1'])]
        rw [List.filter_append, hsl, hsr, List.map_append]

/-- C6: for every tree built over `count ≥ 1` faces, the build and the
flattening succeed, and each face index `i ∈ [0, count)` appears exactly once
as a leaf child encoding `-(i+1)` among the `subn` slots of the flattened
node array. -/
theorem C6_leaf_encodings (faces : List Face) (hcnt : 1 ≤ faces.length) :
    ∃ fl, buildFlat faces = some fl ∧
      ∀ i : Nat, i < faces.length → (flatSlots fl).count (-((i : ℤ) + 1)) = 1 := by
  have hsome := splitAabb_some faces.length (mkState faces) 0 faces.length (by omega)
    (by omega)
  obtain ⟨⟨onode, st'⟩, heq⟩ := Option.isSome_iff_exists.mp hsome
  obtain ⟨t, hon, hwf, _, hleaves⟩ :=
    splitAabb_spec faces.length (mkState faces) 0 faces.length onode st' (by omega) heq
  subst hon
  obtain ⟨fl, hfl, hslots⟩ := flatten_wf t hwf 0
  have hbuild : buildFlat faces = some fl := by
    unfold buildFlat aabbBuild
    rw [if_neg (by omega)]
    rw [heq]
    exact hfl
  refine ⟨fl, hbuild, ?_⟩
  intro i hi
  have hv : (fun z => decide (z < 0)) (-((i : ℤ) + 1)) = true := by
    simp
    omega
  have hcf := @List.count_filter ℤ _ _ (fun z => decide (z < 0)) (-((i : ℤ) + 1))
    (flatSlots fl) hv
  rw [← hcf, hslots, hleaves, List.map_map]
  have hinj : Function.Injective ((fun i : ℤ => -(i + 1)) ∘ Int.ofNat) := by
    intro a b hab
    simp only [Function.comp, Int.ofNat_eq_natCast, neg_inj, add_left_inj] at hab
    exact_mod_cast hab
  have hval : ((fun i : ℤ => -(i + 1)) ∘ Int.ofNat) i = -((i : ℤ) + 1) := by
    simp [Int.ofNat_eq_natCast]
  rw [← hval, List.count_map_of_injective _ _ hinj]
  exact List.count_eq_one_of_mem (List.nodup_range' _ _) (by
    rw [List.mem_range'_1]
    omega)

theorem C6_leaf_encodings_witness :
    ∃ fl, buildFlat [defaultFace, defaultFace, defaultFace] = some fl ∧
      ∀ i : Nat, i < [defaultFace, defaultFace, defaultFace].length →
        (flatSlots fl).count (-((i : ℤ) + 1)) = 1 :=
  C6_leaf_encodings [defaultFace, defaultFace, defaultFace] (by norm_num)

/-- C7: `_sort_triangles` returns an index in `[L, R-1]`, so after the two
degenerate-partition guards the split index satisfies `L < lx < R` whenever
`R - L ≥ 3` (both recursive subranges are strictly smaller and non-empty);
consequently the tree build terminates — with recursion depth at most the
face count — for every face array with `count ≥ 1`. -/
theorem C7_split_guards_and_termination :
    (∀ (st : AState) (x : ℚ) (L R axis : Nat) (lx0 : Nat) (st' : AState),
      3 ≤ R - L → sortTriangles st x L R axis = some (lx0, st') →
      L < (if (if lx0 = L then L + 1 else lx0) = R then R - 1
        else (if lx0 = L then L + 1 else lx0)) ∧
      (if (if lx0 = L then L + 1 else lx0) = R then R - 1
        else (if lx0 = L then L + 1 else lx0)) < R) ∧
    (∀ faces : List Face, 1 ≤ faces.length → (aabbBuild faces).isSome = true) := by
  constructor
  · intro st x L R axis lx0 st' h3 hsort
    unfold sortTriangles at hsort
    have hb := partLoop_bounds x axis _ st L (R - 1) (lx0, st') (by omega) hsort
    simp only [] at hb
    split_ifs <;> omega
  · intro faces h1
    unfold aabbBuild
    rw [if_neg (by omega)]
    exact splitAabb_some faces.length (mkState faces) 0 faces.length (by omega) (by omega)

theorem w7_center0 : (centerAt w7St 0).nth 0 = 0 := rfl

theorem w7_center1 : (centerAt w7St 1).nth 0 = 10 := rfl

theorem w7_sort_eval : sortTriangles w7St 10 0 3 0 = some (2, w7St) := by
  have ha1 : advI w7St 10 0 0 2 = advI w7St 10 0 1 2 :=
    advI_stuck w7St 10 0 0 2 (by norm_num [w7_center0]) (by norm_num)
  have ha2 : advI w7St 10 0 1 2 = advI w7St 10 0 2 2 :=
    advI_stuck w7St 10 0 1 2 (by norm_num [w7_center1]) (by norm_num)
  have ha3 : advI w7St 10 0 2 2 = 2 := by
    rw [advI, if_neg]
    rintro ⟨_, hlt⟩
    omega
  have hbj : advJ w7St 10 0 2 2 = 2 := by
    rw [advJ, if_neg]
    rintro ⟨_, hlt⟩
    omega
  unfold sortTriangles
  show partLoop 10 0 (7 + 1) w7St 0 2 = some (2, w7St)
  rw [partLoop, if_pos (by norm_num : (0 : ℕ) < 2)]
  simp only []
  rw [ha1, ha2, ha3, hbj, if_neg (by norm_num : ¬(2 : ℕ) < 2)]

theorem C7_split_guards_and_termination_witness :
    ((0 : ℕ) < (if (if 2 = 0 then 0 + 1 else 2) = 3 then 3 - 1
      else (if (2 : ℕ) = 0 then 0 + 1 else 2)) ∧
     (if (if 2 = 0 then 0 + 1 else 2) = 3 then 3 - 1
      else (if (2 : ℕ) = 0 then 0 + 1 else 2)) < 3) ∧
    (aabbBuild [defaultFace]).isSome = true :=
  ⟨C7_split_guards_and_termination.1 w7St 10 0 3 0 2 w7St (by norm_num) w7_sort_eval,
   C7_split_guards_and_termination.2 [defaultFace] (by norm_num)⟩

end SceneQ
